import Mathlib

/-! mysqto/log: record rendering, size rotation and the asynchronous queue.

A shallow embedding of `record.go`, `rotate.go`, `async.go`, `backend.go` and `id.go`.

Conventions of the embedding.
* A Go `string` / `[]byte` is a `Bytes`, a list of characters (one `Char` per byte).
* A Go pointer that may be nil (`*string`) is an `Option`; dereferencing nil, indexing out
  of range and every other run-time panic is the result `none`.
* Everything the source takes from outside `src/` (the flag constants, the level table,
  `fmt.Sprint*`, the goroutine id) is a field of `Env`.
-/

namespace Log

/-- A Go byte string. -/
abbrev Bytes := List Char

/-! ## record.go -/

/-- The broken-down fields a `time.Time` reports through `Date()`, `Clock()` and
`Nanosecond()`. -/
structure Wall where
  year : Int
  month : Int
  day : Int
  hour : Int
  min : Int
  sec : Int
  nsec : Int
  deriving DecidableEq, Repr

/-- A `time.Time`: its reading in its own location and its reading in UTC. -/
structure Time where
  here : Wall
  utc : Wall
  deriving DecidableEq, Repr

/-- `t.UTC()`: the same instant with the location set to UTC. -/
def Time.UTC (t : Time) : Time := { here := t.utc, utc := t.utc }

/-- What `record.go` uses and `src/` does not define: the header flag constants, the level
`none` and the table `levels` (declared in the package's `log.go`), the goroutine id
returned by `id()` (read off the run-time stack), and `fmt.Sprint`, `fmt.Sprintf`,
`fmt.Sprintln` over an argument type `α`. Flag masks are non-negative `int`s. -/
structure Env (α : Type) where
  Ldate : Nat
  Ltime : Nat
  Lmicroseconds : Nat
  Llongfile : Nat
  Lshortfile : Nat
  LUTC : Nat
  Lsequence : Nat
  Lloggername : Nat
  Lgoroutineid : Nat
  Lshortfunc : Nat
  Llongfunc : Nat
  none : Int
  levels : Int → Option Bytes
  id : Bytes
  Sprint : List α → Bytes
  Sprintf : Bytes → List α → Bytes
  Sprintln : List α → Bytes

/-- The `Record` of record.go. `formatted` is the write-once guard, `mode` the `writeMode`
(0 = `writeModeLog`, 1 = `writeModeLogf`, 2 = `writeModeLogln`). -/
structure Record (α : Type) where
  index : Nat
  formatted : Nat
  time : Time
  pfx : Option Bytes
  module : Option Bytes
  level : Int
  file : Option Bytes
  line : Int
  function : Option Bytes
  fmt : Option Bytes
  args : List α
  buf : Bytes
  flag : Nat
  mode : Nat
  color : Bytes
  newline : Bool
  deriving DecidableEq

/-- The constant `colorReset` of color_print.go, `"\033[0m"`. -/
def colorReset : Bytes := [Char.ofNat 27, '[', '0', 'm']

/-- The loop of `utoa` together with the final store `b[bp] = byte('0' + i)`. The first
argument is `bp + 1`, the number of cells of `b [20]byte` still free, and the last one is
`b[bp+1:]`. A store with `bp = -1` is an index-out-of-range panic. -/
def utoaLoop : Nat → Nat → Int → Bytes → Option Bytes
  | 0, _, _, _ => Option.none
  | free + 1, i, wid, b =>
    if i ≥ 10 ∨ wid > 1 then
      utoaLoop free (i / 10) (wid - 1) (Char.ofNat ((48 + i - i / 10 * 10) % 256) :: b)
    else
      some (Char.ofNat ((48 + i) % 256) :: b)

/-- `utoa(buf, i, wid)`: appends `b[bp:]` to `buf`. -/
def utoa (buf : Bytes) (i : Nat) (wid : Int) : Option Bytes :=
  match utoaLoop 20 i wid [] with
  | some ds => some (buf ++ ds)
  | Option.none => Option.none

/-- `itoa(buf, i, wid)`: `utoa(buf, uint64(i), wid)`. -/
def itoa (buf : Bytes) (i : Int) (wid : Int) : Option Bytes :=
  utoa buf (i % 2 ^ 64).toNat wid

/-- The loop of `splitLast`, entered with the index `i`: `for ; i > 0; i--`. -/
def splitLastLoop (long : Bytes) (sep : Char) : Nat → Bytes
  | 0 => long
  | i + 1 =>
    if long[i + 1]? = some sep then long.drop (i + 2)
    else splitLastLoop long sep i

/-- `splitLast(long, sep)`. -/
def splitLast (long : Bytes) (sep : Char) : Bytes :=
  splitLastLoop long sep (long.length - 1)

section Header

variable {α : Type}

/-- record.go 86-88: the prefix. -/
def hdrPrefix (r : Record α) (buf : Bytes) : Bytes :=
  match r.pfx with
  | some p => buf ++ p
  | Option.none => buf

/-- record.go 93-101: the date. -/
def hdrDate (e : Env α) (r : Record α) (buf : Bytes) : Option Bytes :=
  if r.flag &&& e.Ldate ≠ 0 then do
    let buf ← itoa buf r.time.here.year 4
    let buf ← itoa (buf ++ ['/']) r.time.here.month 2
    let buf ← itoa (buf ++ ['/']) r.time.here.day 2
    pure (buf ++ [' '])
  else pure buf

/-- record.go 102-114: the clock. -/
def hdrClock (e : Env α) (r : Record α) (buf : Bytes) : Option Bytes :=
  if r.flag &&& (e.Ltime ||| e.Lmicroseconds) ≠ 0 then do
    let buf ← itoa buf r.time.here.hour 2
    let buf ← itoa (buf ++ [':']) r.time.here.min 2
    let buf ← itoa (buf ++ [':']) r.time.here.sec 2
    let buf ← (if r.flag &&& e.Lmicroseconds ≠ 0 then
        itoa (buf ++ ['.']) (Int.tdiv r.time.here.nsec 1000) 6
      else pure buf)
    pure (buf ++ [' '])
  else pure buf

/-- record.go 89-115: date and time; `r.time` is overwritten when `LUTC` is set. -/
def hdrTime (e : Env α) (r : Record α) (buf : Bytes) : Option (Record α × Bytes) :=
  if r.flag &&& (e.Ldate ||| e.Ltime ||| e.Lmicroseconds) ≠ 0 then do
    let r := if r.flag &&& e.LUTC ≠ 0 then { r with time := r.time.UTC } else r
    let buf ← hdrDate e r buf
    let buf ← hdrClock e r buf
    pure (r, buf)
  else pure (r, buf)

/-- record.go 117-121: the sequence number. -/
def hdrSequence (e : Env α) (r : Record α) (buf : Bytes) : Option Bytes :=
  if r.flag &&& e.Lsequence ≠ 0 then do
    let buf ← utoa (buf ++ ['[']) r.index 10
    pure (buf ++ [']', ' '])
  else pure buf

/-- record.go 124-128: the level tag. -/
def hdrLevel (e : Env α) (r : Record α) (buf : Bytes) : Option Bytes :=
  if r.level > e.none then do
    let tag ← e.levels r.level
    pure (buf ++ ['['] ++ tag ++ [']', ' '])
  else pure buf

/-- record.go 130-138: the module name. -/
def hdrModule (e : Env α) (r : Record α) (buf : Bytes) : Bytes :=
  match r.module with
  | some m =>
    if r.flag &&& e.Lloggername > 0 ∧ m.length > 0 then
      let buf := buf ++ m
      let buf := if r.flag &&& e.Lgoroutineid ≠ 0 then buf ++ ['-'] ++ e.id else buf
      buf ++ [' ']
    else buf
  | Option.none => buf

/-- record.go 140-151: file and line; `*r.file` is overwritten under `Lshortfile`. -/
def hdrFile (e : Env α) (r : Record α) (buf : Bytes) : Option (Record α × Bytes) :=
  if r.flag &&& (e.Lshortfile ||| e.Llongfile) ≠ 0 then do
    let file ← r.file
    let file := if r.flag &&& e.Lshortfile ≠ 0 then splitLast file '/' else file
    let buf ← itoa (buf ++ file ++ [':']) r.line (-1)
    let buf := buf ++ [':']
    let buf := if r.flag &&& (e.Lshortfunc ||| e.Llongfunc) = 0 then buf ++ [' '] else buf
    pure ({ r with file := some file }, buf)
  else pure (r, buf)

/-- record.go 152-158: the function; `*r.function` is overwritten under `Lshortfunc`. -/
def hdrFunction (e : Env α) (r : Record α) (buf : Bytes) : Option (Record α × Bytes) :=
  if r.flag &&& (e.Lshortfunc ||| e.Llongfunc) ≠ 0 then do
    let fn ← r.function
    let fn := if r.flag &&& e.Lshortfunc ≠ 0 then splitLast fn '.' else fn
    pure ({ r with function := some fn }, buf ++ fn ++ [':', ' '])
  else pure (r, buf)

/-- `Record.formatHeader`: the header is appended to `buf`; the record comes back with the
fields the method overwrites. -/
def formatHeader (e : Env α) (r : Record α) (buf : Bytes) : Option (Record α × Bytes) := do
  let buf := hdrPrefix r buf
  let (r, buf) ← hdrTime e r buf
  let buf ← hdrSequence e r buf
  let buf ← hdrLevel e r buf
  let buf := hdrModule e r buf
  let (r, buf) ← hdrFile e r buf
  hdrFunction e r buf

/-- `Record.print`: the message body. -/
def print (e : Env α) (r : Record α) : Option Bytes :=
  match r.mode with
  | 0 => some (e.Sprint r.args)
  | 1 => r.fmt.map (fun f => e.Sprintf f r.args)
  | _ => some (e.Sprintln r.args)

/-- `Record.msgBuf`: the rendered bytes and the record as the call leaves it. -/
def msgBuf (e : Env α) (r : Record α) : Option (Bytes × Record α) :=
  if r.formatted = 0 then do
    let buf : Bytes := []
    let buf := if r.color.length > 0 then buf ++ r.color else buf
    let (r, buf) ← formatHeader e r buf
    let message ← print e r
    let buf := buf ++ message
    let buf := if r.newline ∧ (message.length = 0 ∨ message.getLast? ≠ some '\n')
      then buf ++ ['\n'] else buf
    let buf := if r.color.length > 0 then buf ++ colorReset else buf
    pure (buf, { r with buf := buf, formatted := 1 })
  else pure (r.buf, r)

/-- `Record.message`. -/
def message (e : Env α) (r : Record α) : Option (Bytes × Record α) :=
  msgBuf e r

/-- The bytes `msgBuf` returns for a record. -/
def render (e : Env α) (r : Record α) : Option Bytes :=
  (msgBuf e r).map Prod.fst

/-- syslog.go 89-90, the start of `Syslog.log`: `r.newline = false` and then
`r.message()`. -/
def Syslog.message (e : Env α) (r : Record α) : Option (Bytes × Record α) :=
  Log.message e { r with newline := false }

end Header

/-- The flag constants as consecutive bits, a print level 0 and five tagged levels, string
arguments and a format without verbs; used for the concrete runs below. -/
def demoEnv : Env String where
  Ldate := 1
  Ltime := 2
  Lmicroseconds := 4
  Llongfile := 8
  Lshortfile := 16
  LUTC := 32
  Lsequence := 64
  Lloggername := 128
  Lgoroutineid := 256
  Lshortfunc := 512
  Llongfunc := 1024
  none := 0
  levels := fun l =>
    if l = 1 then some "DEBUG".toList else if l = 2 then some "INFO".toList
    else if l = 3 then some "WARN".toList else if l = 4 then some "ERROR".toList
    else if l = 5 then some "FATAL".toList else if l = 0 then some [] else Option.none
  id := "7".toList
  Sprint := fun xs => (String.join xs).toList
  Sprintf := fun f _ => f
  Sprintln := fun xs => (" ".intercalate xs).toList ++ ['\n']

/-- The record of `ExampleLogger`, with the file path, line and message left open. -/
def demoRecord (pfx file : String) (line : Int) (msg : String) : Record String where
  index := 1
  formatted := 0
  time := ⟨⟨2019, 5, 17, 9, 3, 7, 123456789⟩, ⟨2019, 5, 17, 1, 3, 7, 123456789⟩⟩
  pfx := some pfx.toList
  module := Option.none
  level := 0
  file := some file.toList
  line := line
  function := some "github.com/mysqto/log.ExampleLogger".toList
  fmt := Option.none
  args := [msg]
  buf := []
  flag := 16
  mode := 0
  color := []
  newline := true

/-! ### The layout the specification describes -/

/-- Decimal digits of `n`, most significant first. -/
def decimal (n : Nat) : Bytes := Nat.toDigits 10 n

/-- Decimal digits of `n`, left-padded with `'0'` to at least `wid` characters. -/
def zeroPad (wid : Nat) (n : Nat) : Bytes :=
  List.replicate (wid - (decimal n).length) '0' ++ decimal n

/-- The conversion `uint64(i)` of an `int`. -/
def u64 (i : Int) : Nat := (i % 2 ^ 64).toNat

section Layout

variable {α : Type}

/-- The wall clock the header shows: UTC when `LUTC` is set. -/
def Layout.stamp (e : Env α) (r : Record α) : Wall :=
  if r.flag &&& e.LUTC ≠ 0 then r.time.utc else r.time.here

/-- The color escape, empty when the record has no color. -/
def Layout.color (r : Record α) : Bytes := r.color

/-- The prefix, empty when unset. -/
def Layout.pfx (r : Record α) : Bytes := r.pfx.getD []

/-- The date `YYYY/MM/DD ` of a wall clock under the flag word `flag`. -/
def Layout.dateOf (e : Env α) (flag : Nat) (w : Wall) : Bytes :=
  if flag &&& e.Ldate ≠ 0 then
    zeroPad 4 (u64 w.year) ++ ['/'] ++ zeroPad 2 (u64 w.month) ++ ['/']
      ++ zeroPad 2 (u64 w.day) ++ [' ']
  else []

/-- The time `HH:MM:SS[.micros] ` of a wall clock under the flag word `flag`. -/
def Layout.clockOf (e : Env α) (flag : Nat) (w : Wall) : Bytes :=
  if flag &&& (e.Ltime ||| e.Lmicroseconds) ≠ 0 then
    zeroPad 2 (u64 w.hour) ++ [':'] ++ zeroPad 2 (u64 w.min) ++ [':'] ++ zeroPad 2 (u64 w.sec)
      ++ (if flag &&& e.Lmicroseconds ≠ 0 then ['.'] ++ zeroPad 6 (u64 (Int.tdiv w.nsec 1000)) else [])
      ++ [' ']
  else []

/-- The date group. -/
def Layout.date (e : Env α) (r : Record α) : Bytes :=
  Layout.dateOf e r.flag (Layout.stamp e r)

/-- The time group. -/
def Layout.clock (e : Env α) (r : Record α) : Bytes :=
  Layout.clockOf e r.flag (Layout.stamp e r)

/-- The bracketed sequence number. -/
def Layout.seq (e : Env α) (r : Record α) : Bytes :=
  if r.flag &&& e.Lsequence ≠ 0 then ['['] ++ zeroPad 10 r.index ++ [']', ' '] else []

/-- The bracketed level tag, absent at the plain-print level. -/
def Layout.level (e : Env α) (r : Record α) : Bytes :=
  if r.level > e.none then ['['] ++ (e.levels r.level).getD [] ++ [']', ' '] else []

/-- The module name, with `-` and the goroutine id when requested. -/
def Layout.module (e : Env α) (r : Record α) : Bytes :=
  if r.flag &&& e.Lloggername > 0 ∧ (r.module.getD []).length > 0 then
    r.module.getD [] ++ (if r.flag &&& e.Lgoroutineid ≠ 0 then ['-'] ++ e.id else []) ++ [' ']
  else []

/-- The file name the header shows: the short form under `Lshortfile`. -/
def Layout.fileName (e : Env α) (r : Record α) : Bytes :=
  if r.flag &&& e.Lshortfile ≠ 0 then splitLast (r.file.getD []) '/' else r.file.getD []

/-- The function name the header shows: the short form under `Lshortfunc`. -/
def Layout.funcName (e : Env α) (r : Record α) : Bytes :=
  if r.flag &&& e.Lshortfunc ≠ 0 then splitLast (r.function.getD []) '.'
  else r.function.getD []

/-- The `file:line:` group; it ends in a blank exactly when no function group follows. -/
def Layout.file (e : Env α) (r : Record α) : Bytes :=
  if r.flag &&& (e.Lshortfile ||| e.Llongfile) ≠ 0 then
    Layout.fileName e r ++ [':'] ++ decimal (u64 r.line) ++ [':']
      ++ (if r.flag &&& (e.Lshortfunc ||| e.Llongfunc) = 0 then [' '] else [])
  else []

/-- The `function: ` group. -/
def Layout.func (e : Env α) (r : Record α) : Bytes :=
  if r.flag &&& (e.Lshortfunc ||| e.Llongfunc) ≠ 0 then Layout.funcName e r ++ [':', ' ']
  else []

/-- The message body. -/
def Layout.body (e : Env α) (r : Record α) : Bytes := (print e r).getD []

/-- The trailing newline: requested and not already the last byte of the body. -/
def Layout.newline (e : Env α) (r : Record α) : Bytes :=
  if r.newline = true ∧ (Layout.body e r).getLast? ≠ some '\n' then ['\n'] else []

/-- The color reset, present when a color was applied. -/
def Layout.reset (r : Record α) : Bytes := if r.color = [] then [] else colorReset

/-- The header groups in the order of the specification. -/
def Layout.header (e : Env α) (r : Record α) : Bytes :=
  Layout.pfx r ++ Layout.date e r ++ Layout.clock e r ++ Layout.seq e r ++ Layout.level e r
    ++ Layout.module e r ++ Layout.file e r ++ Layout.func e r

/-- The rendered line in the order of the specification. -/
def Layout.line (e : Env α) (r : Record α) : Bytes :=
  Layout.color r ++ Layout.header e r ++ Layout.body e r ++ Layout.newline e r
    ++ Layout.reset r

/-- What a rendering needs in order not to panic: the index is a `uint64`, the level has an
entry in `levels`, and the pointers `formatHeader` and `print` dereference are set. -/
def Sound (e : Env α) (r : Record α) : Prop :=
  r.index < 2 ^ 64 ∧
  (r.level > e.none → (e.levels r.level).isSome = true) ∧
  (r.flag &&& (e.Lshortfile ||| e.Llongfile) ≠ 0 → r.file.isSome = true) ∧
  (r.flag &&& (e.Lshortfunc ||| e.Llongfunc) ≠ 0 → r.function.isSome = true) ∧
  (r.mode = 1 → r.fmt.isSome = true)

instance (e : Env α) (r : Record α) : Decidable (Sound e r) := by
  unfold Sound; infer_instance

/-- The record as a first rendering leaves it. -/
def rendered (e : Env α) (r : Record α) : Record α :=
  { r with
    time := if r.flag &&& (e.Ldate ||| e.Ltime ||| e.Lmicroseconds) ≠ 0 ∧ r.flag &&& e.LUTC ≠ 0
      then r.time.UTC else r.time
    file := if r.flag &&& (e.Lshortfile ||| e.Llongfile) ≠ 0 then some (Layout.fileName e r)
      else r.file
    function := if r.flag &&& (e.Lshortfunc ||| e.Llongfunc) ≠ 0
      then some (Layout.funcName e r) else r.function
    buf := Layout.line e r
    formatted := 1 }

end Layout

/-! ## rotate.go -/

/-- `ByteSize` is an `int64`: a sum wraps around into `-2^63 .. 2^63 - 1`. -/
def wrap64 (x : Int) : Int := (x + 2 ^ 63) % 2 ^ 64 - 2 ^ 63

/-- `CompressMethod` is an `int`. -/
abbrev CompressMethod := Int

/-- `NoCompress`. -/
def NoCompress : CompressMethod := 0

/-- `GZIP`. -/
def GZIP : CompressMethod := 1

/-- `Zlib`. -/
def Zlib : CompressMethod := 2

/-- `LZW`. -/
def LZW : CompressMethod := 3

/-- `CompressMethod.String`: the file extension of the method. -/
def CompressMethod.String (c : CompressMethod) : String :=
  if c = GZIP then ".gz" else if c = Zlib then ".zlib" else if c = LZW then ".lz" else ""

/-- The file names one logger forms from `l.filename`: `plain ext` is
`fmt.Sprintf("%s%s", l.filename, ext)` (the base log file itself for `ext = ""`) and
`numbered i ext` is `fmt.Sprintf("%s.%d%s", l.filename, i, ext)`. -/
inductive Path where
  | plain (ext : String)
  | numbered (i : Int) (ext : String)
  deriving DecidableEq, Repr

/-- The base log file `l.filename`. -/
def Path.base : Path := Path.plain ""

/-- The directory as the logger sees it: the content of each of its files, `none` for a
file that does not exist. -/
abbrev FS := Path → Option Bytes

/-- The file system with `p` holding `data`. -/
def FS.set (fs : FS) (p : Path) (data : Option Bytes) : FS :=
  fun q => if q = p then data else fs q

/-- `os.Rename(old, new)` of an existing file: `new` is replaced. -/
def FS.rename (fs : FS) (old new : Path) : FS :=
  (fs.set new (fs old)).set old Option.none

/-- The compressors of `compress/gzip`, `compress/zlib` and `compress/lzw` (MSB, 8 bits),
each taken as the function from the bytes written before `Close` to the bytes emitted. -/
structure Codec where
  gzip : Bytes → Bytes
  zlib : Bytes → Bytes
  lzw : Bytes → Bytes

/-- The `io.WriteCloser` in `l.out`: an open `*os.File` on a path, on which `Write` appends
every byte and `Close` succeeds, or a writer whose `Write` and `Close` return an error. -/
inductive Writer where
  | file (p : Path)
  | failing
  deriving DecidableEq, Repr

/-- The `RotateLogger` of rotate.go without its queue (an unbuffered channel that hands the
records to `start` one by one), together with the directory it works in. -/
structure RotateLogger where
  maxFiles : Int
  maxSize : Int
  writtenSize : Int
  out : Option Writer
  compress : CompressMethod
  disk : FS

/-- `RotateLogger.write`: `none` is the nil dereference of `l.out`. -/
def RotateLogger.write (l : RotateLogger) (data : Bytes) : Option RotateLogger :=
  match l.out with
  | Option.none => Option.none
  | some (Writer.file p) =>
    some { l with
      disk := l.disk.set p (some ((l.disk p).getD [] ++ data))
      writtenSize := wrap64 (l.writtenSize + data.length) }
  | some Writer.failing => some l

/-- `RotateLogger.reset`: the base file is opened with `O_CREATE|O_APPEND|O_RDWR`, which
creates it empty when it is missing and keeps its bytes when it exists. The open is taken
to succeed (the source panics otherwise). -/
def RotateLogger.reset (l : RotateLogger) : RotateLogger :=
  { l with
    disk := l.disk.set Path.base (some ((l.disk Path.base).getD []))
    out := some (Writer.file Path.base)
    writtenSize := 0 }

/-- `RotateLogger.archive`: the base file is read whole and written through the selected
compressor to `<filename><ext>`, opened with `O_CREATE|O_APPEND|O_RDWR`. -/
def RotateLogger.archive (c : Codec) (l : RotateLogger) : RotateLogger :=
  match l.disk Path.base with
  | Option.none => l
  | some content =>
    let compressedFileName := Path.plain l.compress.String
    let packed :=
      if l.compress = GZIP then c.gzip content
      else if l.compress = Zlib then c.zlib content
      else if l.compress = LZW then c.lzw content
      else content
    let appended := (l.disk compressedFileName).getD [] ++ packed
    { l with disk := l.disk.set compressedFileName (some appended) }

/-- The body of the loop of `rotate` for one index `i`: a file that `os.Stat` does not find
is skipped, and `os.Rename` of a file that exists succeeds. -/
def shiftOne (ext : String) (i : Int) (fs : FS) : FS :=
  let fileName := if i = -1 then Path.plain ext else Path.numbered i ext
  let newFileName := Path.numbered (i + 1) ext
  match fs fileName with
  | Option.none => fs
  | some _ => fs.rename fileName newFileName

/-- The loop `for i := ...; i >= -1; i--` of `rotate`, entered with `i = n - 2`. -/
def shiftLoop (ext : String) : Nat → FS → FS
  | 0, fs => fs
  | n + 1, fs => shiftLoop ext n (shiftOne ext ((n : Int) - 1) fs)

/-- `RotateLogger.rotate`: close the writer (and return when that fails), archive under a
compression method, shift the generations from `i = maxFiles - 1` down to `i = -1`, and
`reset`. -/
def RotateLogger.rotate (c : Codec) (l : RotateLogger) : RotateLogger :=
  if l.out = some Writer.failing then l
  else
    let l := if l.compress > NoCompress then l.archive c else l
    let l := { l with disk := shiftLoop l.compress.String (l.maxFiles - 1 + 2).toNat l.disk }
    l.reset

/-- `RotateLogger.writeLog`, after `buf := r.msgBuf()`. -/
def RotateLogger.writeBuf (c : Codec) (l : RotateLogger) (buf : Bytes) :
    Option RotateLogger :=
  let size : Int := buf.length
  let l := if wrap64 (l.writtenSize + size) > l.maxSize then l.rotate c else l
  l.write buf

/-- `RotateLogger.writeLog`. -/
def RotateLogger.writeLog {α : Type} (e : Env α) (c : Codec) (l : RotateLogger)
    (r : Record α) : Option RotateLogger := do
  let (buf, _) ← msgBuf e r
  l.writeBuf c buf

/-- The loop of `RotateLogger.start` over the records it receives. -/
def RotateLogger.writeLogs {α : Type} (e : Env α) (c : Codec) :
    RotateLogger → List (Record α) → Option RotateLogger
  | l, [] => some l
  | l, r :: rs =>
    match l.writeLog e c r with
    | some l1 => RotateLogger.writeLogs e c l1 rs
    | Option.none => Option.none

/-- `NewRotateBackend`, in a directory `disk`. -/
def NewRotateBackend (c : Codec) (disk : FS) (maxFiles maxSize : Int)
    (compress : CompressMethod) : RotateLogger :=
  RotateLogger.rotate c
    { maxFiles := maxFiles, maxSize := maxSize, writtenSize := 0, out := Option.none,
      compress := compress, disk := disk }

/-- A stand-in codec for the concrete runs: each compressor tags what it is given. -/
def demoCodec : Codec where
  gzip := fun x => 'G' :: x
  zlib := fun x => 'Z' :: x
  lzw := fun x => 'L' :: x

/-- An empty directory. -/
def emptyDisk : FS := fun _ => Option.none

/-- The rotation applied `n` times. -/
def rotations (c : Codec) : Nat → RotateLogger → RotateLogger
  | 0, l => l
  | n + 1, l => rotations c n (l.rotate c)

/-! ## async.go -/

/-- What one goroutine does when it is scheduled: it completes its step, it cannot proceed
in this state (a full or empty channel), or it panics. -/
inductive Run (σ : Type) where
  | done (s : σ)
  | blocked
  | panicked

/-- The `AsyncLog` of async.go. `out` is the sink, given by the data of every `Write` it
received; `queue` is the content of the channel of capacity 1024, `queueClosed` whether it
was closed; `stop` is whether the channel `stop` was closed. -/
structure AsyncLog (α : Type) where
  stopped : Nat
  out : List Bytes
  queue : List (Record α)
  queueClosed : Bool
  stop : Bool

section Async

variable {α : Type}

/-- `NewAsyncBackend`. -/
def NewAsyncBackend : AsyncLog α :=
  { stopped := 0, out := [], queue := [], queueClosed := false, stop := false }

/-- `AsyncLog.write`. -/
def AsyncLog.write (l : AsyncLog α) (data : Bytes) : AsyncLog α :=
  { l with out := l.out ++ [data] }

/-- Modelled from the spec: the package function `writeLog(backend, r)` of log.go, which is
not under `src/`. The backend "renders and writes" the record: the bytes of `r.msgBuf()` go
to `backend.write`, once, as in `Record.colorful` of color_print_nix.go. -/
def writeLog (e : Env α) (l : AsyncLog α) (r : Record α) : Option (AsyncLog α) :=
  match msgBuf e r with
  | some (buf, _) => some (l.write buf)
  | Option.none => Option.none

/-- `AsyncLog.log`: a send on the channel. -/
def AsyncLog.log (l : AsyncLog α) (r : Record α) : Run (AsyncLog α) :=
  if l.stopped = 0 then
    if l.queueClosed then Run.panicked
    else if l.queue.length < 1024 then Run.done { l with queue := l.queue ++ [r] }
    else Run.blocked
  else Run.done l

/-- One turn of the goroutine of `AsyncLog.start`: an iteration of `for r := range l.queue`,
or `close(l.stop)` once the channel is closed and drained. -/
def AsyncLog.startStep (e : Env α) (l : AsyncLog α) : Run (AsyncLog α) :=
  match l.queue with
  | r :: rest =>
    match writeLog e { l with queue := rest } r with
    | some l1 => Run.done l1
    | Option.none => Run.panicked
  | [] =>
    if l.stop then Run.blocked
    else if l.queueClosed then Run.done { l with stop := true }
    else Run.blocked

/-- The goroutine of `AsyncLog.start` scheduled up to `n` times in a row, until it has
closed `stop`. -/
def AsyncLog.startRun (e : Env α) : Nat → AsyncLog α → Run (AsyncLog α)
  | 0, _ => Run.blocked
  | n + 1, l =>
    match l.startStep e with
    | Run.done l1 => if l1.stop then Run.done l1 else AsyncLog.startRun e n l1
    | Run.blocked => Run.blocked
    | Run.panicked => Run.panicked

/-- `AsyncLog.Flush`: the caller stores `stopped`, closes the queue and waits on `stop`
while the goroutine of `start` runs. -/
def AsyncLog.Flush (e : Env α) (l : AsyncLog α) : Run (AsyncLog α) :=
  let l := { l with stopped := 1 }
  if l.queueClosed then Run.panicked
  else
    let l := { l with queueClosed := true }
    if l.stop then Run.done l else AsyncLog.startRun e (l.queue.length + 1) l

/-- What the scheduler runs before the flush: a caller's `log(r)`, or a turn of the
goroutine of `start`. -/
inductive Action (α : Type) where
  | log (r : Record α)
  | drain

/-- A schedule run from a state; it stops at the first step that cannot be taken. -/
def AsyncLog.exec (e : Env α) : AsyncLog α → List (Action α) → Run (AsyncLog α)
  | l, [] => Run.done l
  | l, Action.log r :: rest =>
    match l.log r with
    | Run.done l1 => AsyncLog.exec e l1 rest
    | Run.blocked => Run.blocked
    | Run.panicked => Run.panicked
  | l, Action.drain :: rest =>
    match l.startStep e with
    | Run.done l1 => AsyncLog.exec e l1 rest
    | Run.blocked => Run.blocked
    | Run.panicked => Run.panicked

/-- The records a schedule logs, in order. -/
def logged : List (Action α) → List (Record α)
  | [] => []
  | Action.log r :: rest => r :: logged rest
  | Action.drain :: rest => logged rest

end Async

/-- The record of `ExampleLogger` with the flags `Ldate`, `Lmicroseconds`, `Lshortfile`,
`LUTC`, `Lsequence`, `Lloggername`, `Lgoroutineid` and `Lshortfunc`, the level INFO, a module
name and a color. -/
def fullRecord : Record String :=
  { demoRecord "logger: " "/src/log/example_test.go" 18 "Hello, log file!" with
    flag := 1 ||| 4 ||| 16 ||| 32 ||| 64 ||| 128 ||| 256 ||| 512
    level := 2
    module := some "example".toList
    color := [Char.ofNat 27, '[', '3', '2', 'm'] }

/-- A record whose argument list, format, flags, color and newline setting are overwritten
by its owner. -/
def retouch {α : Type} (r : Record α) (args : List α) (fmt : Option Bytes) (flag : Nat)
    (color : Bytes) (newline : Bool) : Record α :=
  { r with
    args := args
    fmt := fmt
    flag := flag
    color := color
    newline := newline }

/-- The final element of a path as the specification words it: the text after the last
`sep`, all of the path when it holds no `sep`. -/
def lastElement (sep : Char) : Bytes → Bytes
  | [] => []
  | c :: cs => if sep ∈ cs then lastElement sep cs else if c = sep then cs else c :: cs

/-- The record of `ExampleLogger` with the flags `Lshortfile` and `Lshortfunc`. -/
def bothRecord : Record String :=
  { demoRecord "logger: " "/src/log/example_test.go" 18 "Hello, log file!" with
    flag := 16 ||| 512 }

section Claimed

variable {α : Type}

/-- The group `[file:line:]` of the rendered line format of the specification. -/
def Claimed.file (e : Env α) (r : Record α) : Bytes :=
  if r.flag &&& (e.Lshortfile ||| e.Llongfile) ≠ 0 then
    Layout.fileName e r ++ [':'] ++ decimal (u64 r.line) ++ [':']
  else []

/-- The group `[ function: ]` of the rendered line format of the specification. -/
def Claimed.func (e : Env α) (r : Record α) : Bytes :=
  if r.flag &&& (e.Lshortfunc ||| e.Llongfunc) ≠ 0 then
    [' '] ++ Layout.funcName e r ++ [':', ' ']
  else []

/-- The rendered line format of the specification,
`[prefix][date ][time[.micros] ][[seq] ][[LEVEL] ][module[-unitid] ][file:line:][ function: ]body\n`. -/
def Claimed.line (e : Env α) (r : Record α) : Bytes :=
  Layout.pfx r ++ Layout.date e r ++ Layout.clock e r ++ Layout.seq e r ++ Layout.level e r
    ++ Layout.module e r ++ Claimed.file e r ++ Claimed.func e r ++ Layout.body e r ++ ['\n']

end Claimed

/-- The plain writes of `bufs` to the current writer, one after the other, with nothing in
between. -/
def RotateLogger.writeAll : RotateLogger → List Bytes → Option RotateLogger
  | l, [] => some l
  | l, b :: bs =>
    match l.write b with
    | some l1 => RotateLogger.writeAll l1 bs
    | Option.none => Option.none

/-- The number of bytes in a list of buffers. -/
def total (bufs : List Bytes) : Nat := (bufs.map List.length).sum

/-- A logger as `NewRotateBackend` builds it before its first `rotate()`. -/
def freshLogger (maxFiles maxSize : Int) (compress : CompressMethod) (disk : FS) :
    RotateLogger :=
  { maxFiles := maxFiles
    maxSize := maxSize
    writtenSize := 0
    out := Option.none
    compress := compress
    disk := disk }

/-- The record of `ExampleLogger`. -/
def helloRecord : Record String :=
  demoRecord "logger: " "/src/log/example_test.go" 18 "Hello, log file!"

/-- The 45 bytes `helloRecord` renders to. -/
def helloBytes : Bytes := "logger: example_test.go:18: Hello, log file!\n".toList

/-- Every numbered generation on the disk has its index within `0 .. M`. -/
def Bounded (M : Int) (fs : FS) : Prop :=
  ∀ (j : Int) (ext : String), (fs (Path.numbered j ext)).isSome = true → 0 ≤ j ∧ j ≤ M

/-- The schedule in which every `log` is followed by a turn of the drain goroutine. -/
def alternating {α : Type} : List (Record α) → List (Action α)
  | [] => []
  | r :: rs => Action.log r :: Action.drain :: alternating rs

/-! ## backend.go -/

/-- What `backend.Writer()` holds: an `*os.File` whose `Fd()` reports `fd`, or a writer of
any other dynamic type (nil included). -/
inductive Sink where
  | osFile (fd : Nat)
  | other
  deriving DecidableEq, Repr

/-- The descriptors `os.Stdin.Fd()`, `os.Stdout.Fd()` and `os.Stderr.Fd()`. -/
structure StdFds where
  stdin : Nat
  stdout : Nat
  stderr : Nat

/-- `closeBackend`, given the `Close` calls made so far (each by the descriptor of its
file, in call order): it returns them with its own calls added. An error of `Close` is
printed to `os.Stderr` and changes nothing else. -/
def closeBackend (std : StdFds) (w : Sink) (closes : List Nat) : List Nat :=
  match w with
  | Sink.osFile fd =>
    if fd = std.stdin ∨ fd = std.stdout ∨ fd = std.stderr then closes
    else closes ++ [fd]
  | Sink.other => closes

/-- The usual descriptors 0, 1 and 2. -/
def unixFds : StdFds := { stdin := 0, stdout := 1, stderr := 2 }

/-! ## id.go -/

/-- The loop of `name`, entered with the index `i`:
`for ; i > 0 && path[i] != os.PathSeparator; i--`. -/
def nameLoop (sep : Char) (path : Bytes) : Nat → Bytes
  | 0 => path
  | i + 1 =>
    if path[i + 1]? = some sep then path
    else if path[i + 1]? = some '.' then path.take (i + 1)
    else nameLoop sep path i

/-- `name(path)`, with `sep` the platform's `os.PathSeparator`. -/
def name (sep : Char) (path : Bytes) : Bytes :=
  nameLoop sep path (path.length - 1)

/-- The extension as the doc comment of `name` words it: the suffix beginning at the final
dot in the final element of `path`, empty if that element has no dot. -/
def extension (sep : Char) (path : Bytes) : Bytes :=
  if '.' ∈ lastElement sep path then '.' :: lastElement '.' (lastElement sep path) else []

/-! # Theorems -/

/-! ### Decimal digits -/

theorem digit_eq (d : Nat) (h : d < 10) : Char.ofNat ((48 + d) % 256) = Nat.digitChar d := by
  interval_cases d <;> rfl

theorem toDigitsCore_acc (f : Nat) : ∀ n acc, n < f →
    Nat.toDigitsCore 10 f n acc = Nat.toDigitsCore 10 (n + 1) n [] ++ acc := by
  induction f using Nat.strong_induction_on with
  | _ f ih =>
    intro n acc hn
    cases f with
    | zero => omega
    | succ f =>
      by_cases h0 : n / 10 = 0
      · simp [Nat.toDigitsCore, h0]
      · have hlt : n / 10 < n := by omega
        have h1 := ih f (by omega) (n / 10) (Nat.digitChar (n % 10) :: acc) (by omega)
        have h2 := ih n (by omega) (n / 10) [Nat.digitChar (n % 10)] hlt
        simp [Nat.toDigitsCore, h0, h1, h2]

theorem decimal_small (n : Nat) (h : n < 10) : decimal n = [Nat.digitChar n] := by
  have h0 : n / 10 = 0 := by omega
  have h1 : n % 10 = n := by omega
  simp [decimal, Nat.toDigits, Nat.toDigitsCore, h0, h1]

theorem decimal_step (n : Nat) (h : 10 ≤ n) :
    decimal n = decimal (n / 10) ++ [Nat.digitChar (n % 10)] := by
  have h0 : n / 10 ≠ 0 := by omega
  have hlt : n / 10 < n := by omega
  have h2 := toDigitsCore_acc n (n / 10) [Nat.digitChar (n % 10)] hlt
  simp [decimal, Nat.toDigits, Nat.toDigitsCore, h0, h2]

theorem decimal_length_pos (n : Nat) : 0 < (decimal n).length := by
  by_cases h : n < 10
  · simp [decimal_small n h]
  · simp [decimal_step n (by omega)]

theorem zeroPad_step (w n : Nat) (h : 10 ≤ n ∨ 1 < w) :
    zeroPad w n = zeroPad (w - 1) (n / 10) ++ [Nat.digitChar (n % 10)] := by
  by_cases hn : 10 ≤ n
  · have := decimal_length_pos (n / 10)
    simp only [zeroPad, decimal_step n hn, List.length_append, List.length_singleton,
      List.append_assoc]
    congr 2
    omega
  · have hw : 1 < w := by omega
    have h0 : n / 10 = 0 := by omega
    have h1 : n % 10 = n := by omega
    have hd0 : decimal 0 = ['0'] := by decide
    simp only [zeroPad, decimal_small n (by omega), h0, h1, hd0, List.length_singleton]
    have : w - 1 = (w - 1 - 1) + 1 := by omega
    rw [this, List.replicate_succ']
    simp

theorem zeroPad_le_one (w n : Nat) (h : w ≤ 1) : zeroPad w n = decimal n := by
  have := decimal_length_pos n
  have h0 : w - (decimal n).length = 0 := by omega
  simp [zeroPad, h0]

theorem utoaLoop_eq (free : Nat) : ∀ (i : Nat) (wid : Int) (b : Bytes),
    i < 10 ^ free → wid ≤ free → 0 < free →
    utoaLoop free i wid b = some (zeroPad wid.toNat i ++ b) := by
  induction free with
  | zero => intro i wid b _ _ h; omega
  | succ free ih =>
    intro i wid b hi hw _
    unfold utoaLoop
    have hmod : (48 + i - i / 10 * 10) = 48 + i % 10 := by omega
    by_cases hc : i ≥ 10 ∨ wid > 1
    · rw [if_pos hc, hmod, digit_eq _ (by omega)]
      have hfree : 0 < free := by
        rcases hc with h | h
        · by_contra h0
          have : free = 0 := by omega
          subst this
          simp at hi
          omega
        · omega
      have hi' : i / 10 < 10 ^ free := by
        rw [pow_succ] at hi
        omega
      rw [ih (i / 10) (wid - 1) _ hi' (by omega) hfree]
      have hstep := zeroPad_step wid.toNat i (by omega)
      have hw1 : (wid - 1).toNat = wid.toNat - 1 := by omega
      rw [hstep, hw1]
      simp
    · rw [if_neg hc]
      have h10 : i < 10 := by omega
      have hw1 : wid.toNat ≤ 1 := by omega
      rw [digit_eq _ h10, zeroPad_le_one _ _ hw1, decimal_small i h10]
      rfl

theorem utoa_eq (buf : Bytes) (i : Nat) (wid : Int) (hi : i < 2 ^ 64) (hw : wid ≤ 20) :
    utoa buf i wid = some (buf ++ zeroPad wid.toNat i) := by
  have h := utoaLoop_eq 20 i wid [] (by omega) (by omega) (by omega)
  simp [utoa, h]

theorem u64_lt (i : Int) : u64 i < 2 ^ 64 := by
  unfold u64
  omega

theorem itoa_eq (buf : Bytes) (i : Int) (wid : Int) (hw : wid ≤ 20) :
    itoa buf i wid = some (buf ++ zeroPad wid.toNat (u64 i)) :=
  utoa_eq buf (u64 i) wid (u64_lt i) hw

/-! ### splitLast -/

theorem splitLastLoop_skip (long : Bytes) (sep : Char) (i : Nat) : ∀ k : Nat,
    (∀ j, i < j → j ≤ i + k → long[j]? ≠ some sep) →
    splitLastLoop long sep (i + k) = splitLastLoop long sep i := by
  intro k
  induction k with
  | zero => intro _; rfl
  | succ k ih =>
    intro h
    have h1 : long[i + k + 1]? ≠ some sep := h (i + k + 1) (by omega) (by omega)
    rw [← Nat.add_assoc, splitLastLoop, if_neg h1]
    exact ih (fun j hj hk => h j hj (by omega))

theorem splitLast_of_last (pre suf : Bytes) (sep : Char) (hpre : pre ≠ [])
    (hsuf : sep ∉ suf) : splitLast (pre ++ sep :: suf) sep = suf := by
  obtain ⟨m, hm⟩ : ∃ m, pre.length = m + 1 :=
    ⟨pre.length - 1, by have := List.length_pos.mpr hpre; omega⟩
  have hlen : (pre ++ sep :: suf).length - 1 = (m + 1) + suf.length := by
    simp [hm]
  unfold splitLast
  rw [hlen, splitLastLoop_skip]
  · have hget : (pre ++ sep :: suf)[m + 1]? = some sep := by
      rw [List.getElem?_append_right (by omega)]
      simp [hm]
    rw [splitLastLoop, if_pos hget]
    have : m + 2 = pre.length + 1 := by omega
    rw [this, List.drop_append_eq_append_drop]
    simp
  · intro j hj hk hget
    rw [List.getElem?_append_right (by omega)] at hget
    have hpos : j - pre.length = (j - pre.length - 1) + 1 := by omega
    rw [hpos, List.getElem?_cons_succ] at hget
    exact hsuf (List.getElem?_mem hget)

theorem splitLast_of_not_mem_tail (long : Bytes) (sep : Char) (h : sep ∉ long.tail) :
    splitLast long sep = long := by
  unfold splitLast
  have := splitLastLoop_skip long sep 0 (long.length - 1) (by
    intro j hj _ hget
    apply h
    cases long with
    | nil => simp at hget
    | cons c cs =>
      obtain ⟨j', rfl⟩ : ∃ j', j = j' + 1 := ⟨j - 1, by omega⟩
      rw [List.getElem?_cons_succ] at hget
      exact List.getElem?_mem hget)
  simpa using this

theorem lastElement_of_last (sep : Char) (suf : Bytes) (hsuf : sep ∉ suf) :
    ∀ pre : Bytes, lastElement sep (pre ++ sep :: suf) = suf := by
  intro pre
  induction pre with
  | nil => simp [lastElement, hsuf]
  | cons c pre ih =>
    have hmem : sep ∈ pre ++ sep :: suf := by simp
    rw [List.cons_append, lastElement, if_pos hmem, ih]

theorem lastElement_of_not_mem (sep : Char) (long : Bytes) (h : sep ∉ long) :
    lastElement sep long = long := by
  cases long with
  | nil => rfl
  | cons c cs =>
    simp only [List.mem_cons, not_or] at h
    simp [lastElement, h.2, Ne.symm h.1]

theorem exists_last_occurrence (sep : Char) (l : Bytes) (h : sep ∈ l) :
    ∃ pre suf, l = pre ++ sep :: suf ∧ sep ∉ suf := by
  induction l with
  | nil => simp at h
  | cons c cs ih =>
    by_cases hcs : sep ∈ cs
    · obtain ⟨pre, suf, h1, h2⟩ := ih hcs
      exact ⟨c :: pre, suf, by rw [h1]; rfl, h2⟩
    · have hc : sep = c := by
        rcases List.mem_cons.mp h with h | h
        · exact h
        · exact absurd h hcs
      exact ⟨[], cs, by rw [hc]; rfl, hcs⟩

/-- `splitLast` returns the final element unless the only separator is the first byte. -/
theorem splitLast_eq_lastElement (long : Bytes) (sep : Char)
    (h : long.head? ≠ some sep ∨ sep ∈ long.tail) :
    splitLast long sep = lastElement sep long := by
  by_cases ht : sep ∈ long.tail
  · cases long with
    | nil => simp at ht
    | cons c cs =>
      obtain ⟨pre, suf, h1, h2⟩ := exists_last_occurrence sep cs ht
      have : c :: cs = (c :: pre) ++ sep :: suf := by rw [h1]; rfl
      rw [this, splitLast_of_last _ _ _ (by simp) h2, lastElement_of_last _ _ h2]
  · have hh : long.head? ≠ some sep := by
      rcases h with h | h
      · exact h
      · exact absurd h ht
    rw [splitLast_of_not_mem_tail long sep ht, lastElement_of_not_mem]
    cases long with
    | nil => simp
    | cons c cs =>
      simp only [List.head?_cons, ne_eq, Option.some.injEq] at hh
      simp only [List.tail_cons] at ht
      simp [ht, Ne.symm hh]
/-! ### The header, group by group -/

section HeaderLemmas

variable {α : Type}

theorem and_or_ne_zero_left (a b c : Nat) (h : a &&& b ≠ 0) : a &&& (b ||| c) ≠ 0 := by
  intro h0
  apply h
  apply Nat.eq_of_testBit_eq
  intro i
  have := congrArg (fun x => x.testBit i) h0
  simp [Nat.testBit_and, Nat.testBit_or] at this ⊢
  intro ha
  exact (this ha).1

theorem and_or_ne_zero_right (a b c : Nat) (h : a &&& c ≠ 0) : a &&& (b ||| c) ≠ 0 := by
  rw [Nat.or_comm]
  exact and_or_ne_zero_left a c b h

theorem hdrPrefix_eq (r : Record α) (buf : Bytes) : hdrPrefix r buf = buf ++ Layout.pfx r := by
  unfold hdrPrefix Layout.pfx
  cases r.pfx <;> simp

theorem hdrDate_eq (e : Env α) (r : Record α) (buf : Bytes) :
    hdrDate e r buf = some (buf ++ Layout.dateOf e r.flag r.time.here) := by
  unfold hdrDate Layout.dateOf
  split
  · simp [itoa_eq]
  · simp

theorem hdrClock_eq (e : Env α) (r : Record α) (buf : Bytes) :
    hdrClock e r buf = some (buf ++ Layout.clockOf e r.flag r.time.here) := by
  unfold hdrClock Layout.clockOf
  split
  · split <;> simp [itoa_eq]
  · simp

theorem hdrTime_eq (e : Env α) (r : Record α) (buf : Bytes) :
    hdrTime e r buf = some
      ({ r with time := if r.flag &&& (e.Ldate ||| e.Ltime ||| e.Lmicroseconds) ≠ 0
            ∧ r.flag &&& e.LUTC ≠ 0 then r.time.UTC else r.time },
        buf ++ Layout.date e r ++ Layout.clock e r) := by
  unfold hdrTime Layout.date Layout.clock Layout.stamp
  by_cases h : r.flag &&& (e.Ldate ||| e.Ltime ||| e.Lmicroseconds) ≠ 0
  · by_cases hu : r.flag &&& e.LUTC ≠ 0
    · simp [h, hu, hdrDate_eq, hdrClock_eq, Time.UTC]
    · simp [h, hu, hdrDate_eq, hdrClock_eq]
  · have hd : r.flag &&& e.Ldate = 0 := by
      by_contra hd
      exact h (by rw [Nat.or_assoc]; exact and_or_ne_zero_left _ _ _ hd)
    have hc : r.flag &&& (e.Ltime ||| e.Lmicroseconds) = 0 := by
      by_contra hc
      exact h (by rw [Nat.or_assoc]; exact and_or_ne_zero_right _ _ _ hc)
    simp [h, hd, hc, Layout.dateOf, Layout.clockOf]

theorem hdrSequence_eq (e : Env α) (r : Record α) (buf : Bytes) (hi : r.index < 2 ^ 64) :
    hdrSequence e r buf = some (buf ++ Layout.seq e r) := by
  unfold hdrSequence Layout.seq
  split
  · simp [utoa_eq _ _ _ hi]
  · simp

theorem hdrLevel_eq (e : Env α) (r : Record α) (buf : Bytes)
    (hl : r.level > e.none → (e.levels r.level).isSome = true) :
    hdrLevel e r buf = some (buf ++ Layout.level e r) := by
  unfold hdrLevel Layout.level
  split
  · rename_i h
    obtain ⟨tag, ht⟩ := Option.isSome_iff_exists.mp (hl h)
    simp [ht]
  · simp

theorem hdrModule_eq (e : Env α) (r : Record α) (buf : Bytes) :
    hdrModule e r buf = buf ++ Layout.module e r := by
  unfold hdrModule Layout.module
  cases hm : r.module with
  | none => simp
  | some m =>
    by_cases h : r.flag &&& e.Lloggername > 0 ∧ m.length > 0
    · by_cases hg : r.flag &&& e.Lgoroutineid ≠ 0 <;> simp [h, hg]
    · simp [h]

theorem hdrFile_eq (e : Env α) (r : Record α) (buf : Bytes)
    (hf : r.flag &&& (e.Lshortfile ||| e.Llongfile) ≠ 0 → r.file.isSome = true) :
    hdrFile e r buf = some
      ({ r with file := if r.flag &&& (e.Lshortfile ||| e.Llongfile) ≠ 0
            then some (Layout.fileName e r) else r.file },
        buf ++ Layout.file e r) := by
  unfold hdrFile Layout.file Layout.fileName
  by_cases h : r.flag &&& (e.Lshortfile ||| e.Llongfile) ≠ 0
  · obtain ⟨f, hf⟩ := Option.isSome_iff_exists.mp (hf h)
    have hz : ((-1 : Int)).toNat = 0 := rfl
    by_cases hs : r.flag &&& e.Lshortfile ≠ 0 <;>
      by_cases hn : r.flag &&& (e.Lshortfunc ||| e.Llongfunc) = 0 <;>
      simp [h, hf, hs, hn, itoa_eq, zeroPad_le_one]
  · simp [h]

theorem hdrFunction_eq (e : Env α) (r : Record α) (buf : Bytes)
    (hf : r.flag &&& (e.Lshortfunc ||| e.Llongfunc) ≠ 0 → r.function.isSome = true) :
    hdrFunction e r buf = some
      ({ r with function := if r.flag &&& (e.Lshortfunc ||| e.Llongfunc) ≠ 0
            then some (Layout.funcName e r) else r.function },
        buf ++ Layout.func e r) := by
  unfold hdrFunction Layout.func Layout.funcName
  by_cases h : r.flag &&& (e.Lshortfunc ||| e.Llongfunc) ≠ 0
  · obtain ⟨f, hf⟩ := Option.isSome_iff_exists.mp (hf h)
    by_cases hs : r.flag &&& e.Lshortfunc ≠ 0 <;> simp [h, hf, hs]
  · simp [h]

/-- The record as `formatHeader` leaves it. -/
theorem formatHeader_eq (e : Env α) (r : Record α) (buf : Bytes) (hs : Sound e r) :
    formatHeader e r buf = some
      ({ r with
          time := if r.flag &&& (e.Ldate ||| e.Ltime ||| e.Lmicroseconds) ≠ 0
            ∧ r.flag &&& e.LUTC ≠ 0 then r.time.UTC else r.time
          file := if r.flag &&& (e.Lshortfile ||| e.Llongfile) ≠ 0
            then some (Layout.fileName e r) else r.file
          function := if r.flag &&& (e.Lshortfunc ||| e.Llongfunc) ≠ 0
            then some (Layout.funcName e r) else r.function },
        buf ++ Layout.header e r) := by
  obtain ⟨hi, hl, hfile, hfn, _⟩ := hs
  unfold formatHeader
  simp only [hdrPrefix_eq, hdrTime_eq, Option.bind_eq_bind, Option.some_bind, hdrModule_eq]
  rw [hdrSequence_eq]
  · simp only [Option.some_bind]
    rw [hdrLevel_eq]
    · simp only [Option.some_bind]
      rw [hdrFile_eq]
      · simp only [Option.some_bind]
        rw [hdrFunction_eq]
        · simp [Layout.header, Layout.seq, Layout.level, Layout.module, Layout.file,
            Layout.func, Layout.fileName, Layout.funcName]
        · exact hfn
      · exact hfile
    · exact hl
  · exact hi

theorem print_eq (e : Env α) (r : Record α) (hm : r.mode = 1 → r.fmt.isSome = true) :
    print e r = some (Layout.body e r) := by
  unfold Layout.body print
  split
  · simp
  · rename_i h1
    obtain ⟨f, hf⟩ := Option.isSome_iff_exists.mp (hm h1)
    simp [hf]
  · simp

theorem print_congr (e : Env α) (r r1 : Record α) (h1 : r1.mode = r.mode)
    (h2 : r1.fmt = r.fmt) (h3 : r1.args = r.args) : print e r1 = print e r := by
  unfold print
  rw [h1, h2, h3]

theorem getLast?_ne_newline (m : Bytes) :
    (m.length = 0 ∨ m.getLast? ≠ some '\n') ↔ m.getLast? ≠ some '\n' := by
  constructor
  · rintro (h | h)
    · have : m = [] := List.length_eq_zero.mp h
      simp [this]
    · exact h
  · intro h
    exact Or.inr h

/-- A first rendering of a sound record returns the layout of the specification and leaves
the record with the memo set. -/
theorem msgBuf_eq (e : Env α) (r : Record α) (hf : r.formatted = 0) (hs : Sound e r) :
    msgBuf e r = some (Layout.line e r, rendered e r) := by
  have hm := hs.2.2.2.2
  have hb := print_eq e r hm
  unfold msgBuf
  rw [if_pos hf]
  simp only [Option.bind_eq_bind, formatHeader_eq e r _ hs, Option.some_bind]
  rw [print_congr e r _]
  · rw [hb]
    simp only [Option.some_bind, getLast?_ne_newline]
    by_cases hc : r.color = []
    · by_cases hn : r.newline = true ∧ (Layout.body e r).getLast? ≠ some '\n' <;>
        simp [hc, hn, Layout.line, Layout.color, Layout.newline, Layout.reset, rendered, hb]
    · have hpos : r.color.length > 0 := List.length_pos.mpr hc
      by_cases hn : r.newline = true ∧ (Layout.body e r).getLast? ≠ some '\n' <;>
        simp [hc, hpos, hn, Layout.line, Layout.color, Layout.newline, Layout.reset, rendered,
          hb]
  · rfl
  · rfl
  · rfl

end HeaderLemmas

/-! ### Claims about Record.msgBuf -/

section RecordClaims

variable {α : Type}

/-- C1: a first rendering of a record returns the color escape, the prefix, the date, the
time, the bracketed sequence number, the bracketed level tag, the module name, the
`file:line:` part, the `function:` part, the message body, the trailing newline and the
color reset, concatenated in this order; and each part is empty when its flag or field does
not enable it. -/
theorem C1_msgBuf_fixed_order (e : Env α) (r : Record α) (hf : r.formatted = 0)
    (hs : Sound e r) :
    render e r = some (Layout.color r ++ Layout.pfx r ++ Layout.date e r ++ Layout.clock e r
        ++ Layout.seq e r ++ Layout.level e r ++ Layout.module e r ++ Layout.file e r
        ++ Layout.func e r ++ Layout.body e r ++ Layout.newline e r ++ Layout.reset r)
    ∧ (r.color = [] → Layout.color r = [] ∧ Layout.reset r = [])
    ∧ (r.pfx = Option.none → Layout.pfx r = [])
    ∧ (r.flag &&& e.Ldate = 0 → Layout.date e r = [])
    ∧ (r.flag &&& (e.Ltime ||| e.Lmicroseconds) = 0 → Layout.clock e r = [])
    ∧ (r.flag &&& e.Lsequence = 0 → Layout.seq e r = [])
    ∧ (r.level = e.none → Layout.level e r = [])
    ∧ (r.flag &&& e.Lloggername = 0 ∨ r.module = Option.none → Layout.module e r = [])
    ∧ (r.flag &&& (e.Lshortfile ||| e.Llongfile) = 0 → Layout.file e r = [])
    ∧ (r.flag &&& (e.Lshortfunc ||| e.Llongfunc) = 0 → Layout.func e r = [])
    ∧ (r.newline = false → Layout.newline e r = []) := by
  refine ⟨?_, ?_, ?_, ?_, ?_, ?_, ?_, ?_, ?_, ?_, ?_⟩
  · simp [render, msgBuf_eq e r hf hs, Layout.line, Layout.header]
  · intro h
    simp [Layout.color, Layout.reset, h]
  · intro h
    simp [Layout.pfx, h]
  · intro h
    simp [Layout.date, Layout.dateOf, h]
  · intro h
    simp [Layout.clock, Layout.clockOf, h]
  · intro h
    simp [Layout.seq, h]
  · intro h
    simp [Layout.level, h]
  · rintro (h | h)
    · simp [Layout.module, h]
    · simp [Layout.module, h]
  · intro h
    simp [Layout.file, h]
  · intro h
    simp [Layout.func, h]
  · intro h
    simp [Layout.newline, h]

theorem C1_msgBuf_fixed_order_witness :
    render demoEnv fullRecord = some (Layout.color fullRecord ++ Layout.pfx fullRecord
        ++ Layout.date demoEnv fullRecord ++ Layout.clock demoEnv fullRecord
        ++ Layout.seq demoEnv fullRecord ++ Layout.level demoEnv fullRecord
        ++ Layout.module demoEnv fullRecord ++ Layout.file demoEnv fullRecord
        ++ Layout.func demoEnv fullRecord ++ Layout.body demoEnv fullRecord
        ++ Layout.newline demoEnv fullRecord ++ Layout.reset fullRecord) :=
  (C1_msgBuf_fixed_order demoEnv fullRecord (by decide) (by decide)).1

end RecordClaims

section MemoClaims

variable {α : Type}

theorem msgBuf_post (e : Env α) (r r1 : Record α) (b : Bytes)
    (h : msgBuf e r = some (b, r1)) : r1.formatted ≠ 0 ∧ r1.buf = b := by
  unfold msgBuf at h
  split at h
  · simp only [Option.bind_eq_bind, Option.bind_eq_some, Option.pure_def, Option.some.injEq,
      Prod.mk.injEq] at h
    obtain ⟨p, _, m, _, hb, hr⟩ := h
    subst hr
    exact ⟨by simp, hb⟩
  · rename_i hne
    simp only [Option.pure_def, Option.some.injEq, Prod.mk.injEq] at h
    obtain ⟨hb, hr⟩ := h
    subst hr
    exact ⟨hne, hb⟩

theorem msgBuf_memo (e : Env α) (r : Record α) (h : r.formatted ≠ 0) :
    msgBuf e r = some (r.buf, r) := by
  unfold msgBuf
  rw [if_neg h]
  rfl

/-- C2: once `msgBuf` has returned bytes `b`, a second call returns the same `b` and leaves
the record as it finds it, whatever the argument list, format, flags, color and newline
setting have been changed to in between and whatever the environment now is: the second
call reads the memo and formats nothing. -/
theorem C2_msgBuf_twice (e e2 : Env α) (r r1 : Record α) (b : Bytes)
    (h : msgBuf e r = some (b, r1)) (args : List α) (fmt : Option Bytes) (flag : Nat)
    (color : Bytes) (newline : Bool) :
    msgBuf e2 (retouch r1 args fmt flag color newline)
      = some (b, retouch r1 args fmt flag color newline) := by
  obtain ⟨hne, hb⟩ := msgBuf_post e r r1 b h
  rw [msgBuf_memo e2 (retouch r1 args fmt flag color newline) hne]
  simp [retouch, hb]

theorem C2_msgBuf_twice_witness :
    msgBuf demoEnv fullRecord = some (Layout.line demoEnv fullRecord,
        rendered demoEnv fullRecord)
    ∧ msgBuf demoEnv (retouch (rendered demoEnv fullRecord) ["changed"] Option.none 0 [] false)
      = some (Layout.line demoEnv fullRecord,
        retouch (rendered demoEnv fullRecord) ["changed"] Option.none 0 [] false) :=
  ⟨by decide, C2_msgBuf_twice demoEnv demoEnv fullRecord (rendered demoEnv fullRecord)
    (Layout.line demoEnv fullRecord) (by decide) ["changed"] Option.none 0 [] false⟩

end MemoClaims

section ShortFile

variable {α : Type}

theorem u64_of_nonneg (n : Int) (h0 : 0 ≤ n) (h1 : n < 2 ^ 63) : u64 n = n.toNat := by
  unfold u64
  congr 1
  omega

/-- Away from the leading separator, a plain `Print` record whose only header flag is
`Lshortfile` renders as prefix, final path element, `:`, line, `: `, message and newline. -/
theorem shortfile_line (e : Env α) (r : Record α) (p f : Bytes)
    (hf : r.formatted = 0) (hc : r.color = []) (hp : r.pfx = some p) (hfile : r.file = some f)
    (hlevel : r.level = e.none) (hmode : r.mode = 0) (hn : r.newline = true)
    (hshort : r.flag &&& e.Lshortfile ≠ 0)
    (htime : r.flag &&& (e.Ldate ||| e.Ltime ||| e.Lmicroseconds) = 0)
    (hseq : r.flag &&& e.Lsequence = 0) (hmod : r.flag &&& e.Lloggername = 0)
    (hfunc : r.flag &&& (e.Lshortfunc ||| e.Llongfunc) = 0)
    (hidx : r.index < 2 ^ 64) (hl0 : 0 ≤ r.line) (hl1 : r.line < 2 ^ 63)
    (hsep : f.head? ≠ some '/' ∨ '/' ∈ f.tail) :
    render e r = some (p ++ lastElement '/' f ++ [':'] ++ decimal r.line.toNat ++ [':', ' ']
      ++ e.Sprint r.args
      ++ (if (e.Sprint r.args).getLast? = some '\n' then [] else ['\n'])) := by
  have hfileflag : r.flag &&& (e.Lshortfile ||| e.Llongfile) ≠ 0 :=
    and_or_ne_zero_left _ _ _ hshort
  have hd : r.flag &&& e.Ldate = 0 := by
    by_contra hd
    exact absurd htime (by rw [Nat.or_assoc]; exact and_or_ne_zero_left _ _ _ hd)
  have hck : r.flag &&& (e.Ltime ||| e.Lmicroseconds) = 0 := by
    by_contra hck
    exact absurd htime (by rw [Nat.or_assoc]; exact and_or_ne_zero_right _ _ _ hck)
  have hs : Sound e r := by
    refine ⟨hidx, ?_, ?_, ?_, ?_⟩
    · intro h
      rw [hlevel] at h
      exact absurd h (lt_irrefl _)
    · intro _
      simp [hfile]
    · intro h
      exact absurd hfunc h
    · intro h
      rw [hmode] at h
      exact absurd h (by decide)
  have hbody : Layout.body e r = e.Sprint r.args := by
    simp [Layout.body, print, hmode]
  by_cases hnl : (e.Sprint r.args).getLast? = some '\n' <;>
    simp [render, msgBuf_eq e r hf hs, Layout.line, Layout.header, Layout.color, Layout.reset,
      hc, Layout.pfx, hp, Layout.date, Layout.dateOf, hd, Layout.clock, Layout.clockOf, hck,
      Layout.seq, hseq, Layout.level, hlevel, Layout.module, hmod, Layout.file, hfileflag,
      hfunc, Layout.fileName, hshort, hfile, splitLast_eq_lastElement f '/' hsep,
      Layout.func, hbody, Layout.newline, hn, hnl, u64_of_nonneg r.line hl0 hl1]

end ShortFile

section SyslogLemma

variable {α : Type}

/-- The message `Syslog.log` hands to syslog is the header and the body, with no newline
added. -/
theorem syslog_message (e : Env α) (r : Record α) (hf : r.formatted = 0) (hs : Sound e r)
    (hc : r.color = []) :
    (Syslog.message e r).map Prod.fst = some (Layout.header e r ++ Layout.body e r) := by
  have hs2 : Sound e { r with newline := false } := hs
  have h := msgBuf_eq e { r with newline := false } hf hs2
  unfold Syslog.message message
  rw [h]
  simp [Layout.line, Layout.color, Layout.reset, hc, Layout.newline, Layout.header,
    Layout.pfx, Layout.date, Layout.clock, Layout.stamp, Layout.seq, Layout.level,
    Layout.module, Layout.file, Layout.func, Layout.fileName, Layout.funcName, Layout.body,
    print]

end SyslogLemma

section LineClaims

variable {α : Type}

/-- C3: for the source file `/main.go`, whose only `/` is its first byte, the record of
`ExampleLogger` renders the whole path, `logger: /main.go:18: ...`, where the final path
element is `main.go`: `splitLast` never looks at index 0. The path of the test itself
renders as the test expects. -/
theorem C3_shortfile_leading_separator :
    render demoEnv (demoRecord "logger: " "/main.go" 18 "Hello, log file!")
      = some "logger: /main.go:18: Hello, log file!\n".toList
    ∧ splitLast "/main.go".toList '/' = "/main.go".toList
    ∧ lastElement '/' "/main.go".toList = "main.go".toList
    ∧ render demoEnv (demoRecord "logger: " "/src/log/example_test.go" 18 "Hello, log file!")
      = some "logger: example_test.go:18: Hello, log file!\n".toList := by
  decide

/-- C4: without a color, a first rendering is the header, the body and then one `'\n'`
exactly when the newline flag is set and the body is empty or does not end in `'\n'`; with
the flag clear it is the header and the body and nothing else. -/
theorem C4_trailing_newline (e : Env α) (r : Record α) (hf : r.formatted = 0)
    (hs : Sound e r) (hc : r.color = []) :
    ∃ r1 hdr body, formatHeader e r [] = some (r1, hdr) ∧ print e r1 = some body
      ∧ render e r = some (hdr ++ body ++
          if r.newline = true ∧ (body = [] ∨ body.getLast? ≠ some '\n') then ['\n'] else [])
      ∧ (r.newline = false → render e r = some (hdr ++ body)) := by
  have hb := print_eq e r hs.2.2.2.2
  refine ⟨_, Layout.header e r, Layout.body e r, by simpa using formatHeader_eq e r [] hs,
    ?_, ?_, ?_⟩
  · exact (print_congr e r _ rfl rfl rfl).trans hb
  · have hnl : (if r.newline = true ∧ (Layout.body e r = [] ∨
        (Layout.body e r).getLast? ≠ some '\n') then ['\n'] else []) = Layout.newline e r := by
      unfold Layout.newline
      by_cases h1 : r.newline = true
      · by_cases h2 : (Layout.body e r).getLast? = some '\n'
        · have h3 : Layout.body e r ≠ [] := by
            intro h0
            simp [h0] at h2
          simp [h1, h2, h3]
        · simp [h1, h2]
      · simp [h1]
    rw [hnl]
    simp [render, msgBuf_eq e r hf hs, Layout.line, Layout.color, Layout.reset, hc]
  · intro hn
    simp [render, msgBuf_eq e r hf hs, Layout.line, Layout.color, Layout.reset, hc,
      Layout.newline, hn]

theorem C4_trailing_newline_witness :
    ∃ r1 hdr body, formatHeader demoEnv bothRecord [] = some (r1, hdr)
      ∧ print demoEnv r1 = some body
      ∧ render demoEnv bothRecord = some (hdr ++ body ++
          if bothRecord.newline = true ∧ (body = [] ∨ body.getLast? ≠ some '\n')
          then ['\n'] else [])
      ∧ (bothRecord.newline = false → render demoEnv bothRecord = some (hdr ++ body)) :=
  C4_trailing_newline demoEnv bothRecord (by decide) (by decide) (by decide)

/-- C5, as stated, fails: with a file flag and a function flag the rendered line has no
blank between `file:line:` and `function: `. -/
theorem C5_counterexample :
    render demoEnv bothRecord
      = some "logger: example_test.go:18:ExampleLogger: Hello, log file!\n".toList
    ∧ Claimed.line demoEnv bothRecord
      = "logger: example_test.go:18: ExampleLogger: Hello, log file!\n".toList
    ∧ render demoEnv bothRecord ≠ some (Claimed.line demoEnv bothRecord) := by
  decide

/-- C5, amended: an uncolored line with the newline requested is
`[prefix][date ][time[.micros] ][[seq] ][[LEVEL] ][module[-unitid] ][file:line:][function: ]body\n`
where the blank after `file:line:` is written exactly when no function flag is set and the
function group has no leading blank; so with both flags set `file:line:` is followed at once
by `function: ` and the body. -/
theorem C5_line_layout (e : Env α) (r : Record α) (hf : r.formatted = 0) (hs : Sound e r)
    (hc : r.color = []) (hn : r.newline = true) :
    render e r = some (Layout.pfx r ++ Layout.date e r ++ Layout.clock e r ++ Layout.seq e r
        ++ Layout.level e r ++ Layout.module e r
        ++ (if r.flag &&& (e.Lshortfile ||| e.Llongfile) ≠ 0 then
              Layout.fileName e r ++ [':'] ++ decimal (u64 r.line) ++ [':']
                ++ (if r.flag &&& (e.Lshortfunc ||| e.Llongfunc) = 0 then [' '] else [])
            else [])
        ++ (if r.flag &&& (e.Lshortfunc ||| e.Llongfunc) ≠ 0 then
              Layout.funcName e r ++ [':', ' ']
            else [])
        ++ Layout.body e r
        ++ (if (Layout.body e r).getLast? = some '\n' then [] else ['\n']))
    ∧ (r.flag &&& (e.Lshortfile ||| e.Llongfile) ≠ 0 →
        r.flag &&& (e.Lshortfunc ||| e.Llongfunc) ≠ 0 →
        Layout.file e r ++ Layout.func e r
          = Layout.fileName e r ++ [':'] ++ decimal (u64 r.line) ++ [':']
            ++ Layout.funcName e r ++ [':', ' ']) := by
  constructor
  · have hnl : Layout.newline e r
        = if (Layout.body e r).getLast? = some '\n' then [] else ['\n'] := by
      unfold Layout.newline
      by_cases h2 : (Layout.body e r).getLast? = some '\n' <;> simp [hn, h2]
    rw [← hnl]
    simp [render, msgBuf_eq e r hf hs, Layout.line, Layout.header, Layout.color,
      Layout.reset, hc, Layout.file, Layout.func]
  · intro h1 h2
    simp [Layout.file, Layout.func, h1, h2]

theorem C5_line_layout_witness :
    Layout.file demoEnv bothRecord ++ Layout.func demoEnv bothRecord
      = Layout.fileName demoEnv bothRecord ++ [':'] ++ decimal (u64 bothRecord.line) ++ [':']
        ++ Layout.funcName demoEnv bothRecord ++ [':', ' '] :=
  (C5_line_layout demoEnv bothRecord (by decide) (by decide) (by decide) (by decide)).2
    (by decide) (by decide)

end LineClaims

/-! ### Claims about the rotating backend -/

section RotateClaims

variable {α : Type}

theorem wrap64_id (x : Int) (h0 : 0 ≤ x) (h1 : x < 2 ^ 63) : wrap64 x = x := by
  unfold wrap64
  omega

theorem render_msgBuf (e : Env α) (r : Record α) (b : Bytes) (h : render e r = some b) :
    ∃ r1, msgBuf e r = some (b, r1) := by
  unfold render at h
  cases hm : msgBuf e r with
  | none => simp [hm] at h
  | some p =>
    obtain ⟨b1, r1⟩ := p
    simp [hm] at h
    exact ⟨r1, by rw [h]⟩

theorem writeLog_eq (e : Env α) (c : Codec) (l : RotateLogger) (r : Record α) (b : Bytes)
    (h : render e r = some b) : l.writeLog e c r = l.writeBuf c b := by
  obtain ⟨r1, hr⟩ := render_msgBuf e r b h
  simp [RotateLogger.writeLog, hr]

theorem writeLogs_append (e : Env α) (c : Codec) (rs rs2 : List (Record α)) :
    ∀ l : RotateLogger, RotateLogger.writeLogs e c l (rs ++ rs2)
      = (RotateLogger.writeLogs e c l rs).bind (fun l1 => RotateLogger.writeLogs e c l1 rs2) := by
  induction rs with
  | nil => intro l; simp [RotateLogger.writeLogs]
  | cons r rs ih =>
    intro l
    simp only [List.cons_append, RotateLogger.writeLogs]
    cases l.writeLog e c r with
    | none => simp
    | some l1 => simpa using ih l1

/-- While the running size stays within `maxSize`, `writeLogs` is the plain writes. -/
theorem writeLogs_within (e : Env α) (c : Codec) (p : Path) (rs : List (Record α))
    (bufs : List Bytes) (hrs : List.Forall₂ (fun r b => render e r = some b) rs bufs) :
    ∀ l : RotateLogger, l.out = some (Writer.file p) → 0 ≤ l.writtenSize →
      l.writtenSize + total bufs ≤ l.maxSize → l.writtenSize + total bufs < 2 ^ 63 →
      RotateLogger.writeLogs e c l rs = l.writeAll bufs
      ∧ ∃ l1, l.writeAll bufs = some l1 ∧ l1.writtenSize = l.writtenSize + total bufs
        ∧ l1.out = l.out ∧ l1.maxSize = l.maxSize ∧ l1.maxFiles = l.maxFiles
        ∧ l1.compress = l.compress ∧ ∀ q, q ≠ p → l1.disk q = l.disk q := by
  induction hrs with
  | nil =>
    intro l _ _ _ _
    exact ⟨rfl, l, rfl, by simp [total], rfl, rfl, rfl, rfl, fun _ _ => rfl⟩
  | @cons r b rs bufs hr _ ih =>
    intro l hout h0 hmax h63
    have htot : total (b :: bufs) = b.length + total bufs := by simp [total]
    rw [htot] at hmax h63
    have hw : l.write b = some { l with
        disk := l.disk.set p (some ((l.disk p).getD [] ++ b))
        writtenSize := l.writtenSize + b.length } := by
      simp only [RotateLogger.write, hout]
      rw [wrap64_id _ (by omega) (by omega)]
    have hwb : l.writeBuf c b = l.write b := by
      unfold RotateLogger.writeBuf
      simp only
      rw [wrap64_id _ (by omega) (by omega), if_neg (by omega)]
    obtain ⟨h1, l1, h2, h3, h4, h5, h6, h7, h8⟩ := ih _
      (show (RotateLogger.mk l.maxFiles l.maxSize (l.writtenSize + b.length) l.out l.compress
        (l.disk.set p (some ((l.disk p).getD [] ++ b)))).out = some (Writer.file p) from hout)
      (by simp; omega) (by simp; omega) (by simp; omega)
    refine ⟨?_, l1, ?_, ?_, h4, h5, h6, h7, ?_⟩
    · simp only [RotateLogger.writeLogs, RotateLogger.writeAll, writeLog_eq e c l r b hr, hwb,
        hw]
      exact h1
    · simp only [RotateLogger.writeAll, hw]
      exact h2
    · rw [h3, htot]
      simp
      omega
    · intro q hq
      rw [h8 q hq]
      simp [FS.set, hq]

theorem rotate_open (c : Codec) (l : RotateLogger) (h : l.out ≠ some Writer.failing) :
    (l.rotate c).writtenSize = 0 ∧ (l.rotate c).out = some (Writer.file Path.base)
      ∧ (l.rotate c).maxSize = l.maxSize := by
  unfold RotateLogger.rotate
  rw [if_neg h]
  by_cases hc : l.compress > NoCompress
  · simp only [RotateLogger.reset, if_pos hc, RotateLogger.archive]
    cases l.disk Path.base <;> simp
  · simp [RotateLogger.reset, if_neg hc]

/-- C6: from `writtenSize = 0`, with records `rs` of total size at most `maxSize` and one
more record `rn` that takes the total beyond `maxSize` (all sizes within `int64`, the
writer an open file): the records `rs` are written by plain writes with no rotation, the
disk changing at the open file only; then `rn` is handled by one `rotate` followed by the
write of its bytes; `writtenSize` is 0 after that rotation and the size of `rn` at the
end. -/
theorem C6_rotation_trigger (e : Env α) (c : Codec) (l : RotateLogger) (p : Path)
    (rs : List (Record α)) (rn : Record α) (bufs : List Bytes) (bn : Bytes)
    (hout : l.out = some (Writer.file p)) (h0 : l.writtenSize = 0)
    (hrs : List.Forall₂ (fun r b => render e r = some b) rs bufs)
    (hrn : render e rn = some bn)
    (h1 : (total bufs : Int) ≤ l.maxSize)
    (h2 : (total bufs : Int) + bn.length > l.maxSize)
    (h63 : (total bufs : Int) + bn.length < 2 ^ 63) :
    ∃ l1 l2, RotateLogger.writeLogs e c l rs = some l1
      ∧ l.writeAll bufs = some l1
      ∧ l1.writtenSize = total bufs
      ∧ (∀ q, q ≠ p → l1.disk q = l.disk q)
      ∧ l1.writeLog e c rn = (l1.rotate c).write bn
      ∧ (l1.rotate c).writtenSize = 0
      ∧ (l1.rotate c).write bn = some l2
      ∧ RotateLogger.writeLogs e c l (rs ++ [rn]) = some l2
      ∧ l2.writtenSize = bn.length := by
  obtain ⟨ha, l1, hb, hws, hout1, hmax1, _, _, hdisk⟩ :=
    writeLogs_within e c p rs bufs hrs l hout (by omega) (by omega) (by omega)
  rw [h0, zero_add] at hws
  have hopen := rotate_open c l1 (by rw [hout1, hout]; simp)
  have hstep : l1.writeLog e c rn = (l1.rotate c).write bn := by
    rw [writeLog_eq e c l1 rn bn hrn]
    unfold RotateLogger.writeBuf
    simp only
    rw [hws, wrap64_id _ (by omega) (by omega), if_pos (by omega)]
  have hwrite : (l1.rotate c).write bn = some { l1.rotate c with
      disk := (l1.rotate c).disk.set Path.base
        (some (((l1.rotate c).disk Path.base).getD [] ++ bn))
      writtenSize := bn.length } := by
    simp only [RotateLogger.write, hopen.2.1, hopen.1]
    rw [wrap64_id _ (by omega) (by omega)]
    simp
  refine ⟨l1, _, ha.trans hb, hb, hws, hdisk, hstep, hopen.1, hwrite, ?_, rfl⟩
  rw [writeLogs_append, ha, hb]
  simp [RotateLogger.writeLogs, hstep, hwrite]

end RotateClaims

section GenerationClaims

theorem C6_rotation_trigger_witness :
    ∃ l1 l2, RotateLogger.writeLogs demoEnv demoCodec
        (NewRotateBackend demoCodec emptyDisk 3 100 NoCompress) [helloRecord, helloRecord]
        = some l1
      ∧ (NewRotateBackend demoCodec emptyDisk 3 100 NoCompress).writeAll
        [helloBytes, helloBytes] = some l1
      ∧ l1.writtenSize = total [helloBytes, helloBytes]
      ∧ (∀ q, q ≠ Path.base →
          l1.disk q = (NewRotateBackend demoCodec emptyDisk 3 100 NoCompress).disk q)
      ∧ l1.writeLog demoEnv demoCodec helloRecord = (l1.rotate demoCodec).write helloBytes
      ∧ (l1.rotate demoCodec).writtenSize = 0
      ∧ (l1.rotate demoCodec).write helloBytes = some l2
      ∧ RotateLogger.writeLogs demoEnv demoCodec
          (NewRotateBackend demoCodec emptyDisk 3 100 NoCompress)
          ([helloRecord, helloRecord] ++ [helloRecord]) = some l2
      ∧ l2.writtenSize = helloBytes.length :=
  C6_rotation_trigger demoEnv demoCodec (NewRotateBackend demoCodec emptyDisk 3 100 NoCompress)
    Path.base [helloRecord, helloRecord] helloRecord [helloBytes, helloBytes] helloBytes
    (by decide) (by decide)
    (List.Forall₂.cons (by decide) (List.Forall₂.cons (by decide) List.Forall₂.nil))
    (by decide) (by decide) (by decide) (by decide)

/-- C7: with `maxFiles = 3`, five rotations in a directory that starts empty leave the base
file and the four numbered generations 0, 1, 2 and 3: the loop of `rotate` starts at
`maxFiles - 1` and renames that generation to index `maxFiles`. The same holds with GZIP. -/
theorem C7_generation_index_maxFiles :
    (∀ i ∈ [0, 1, 2, 3], ((rotations demoCodec 5 (freshLogger 3 1024 NoCompress emptyDisk)).disk
        (Path.numbered i "")).isSome = true)
    ∧ ((rotations demoCodec 5 (freshLogger 3 1024 NoCompress emptyDisk)).disk
        Path.base).isSome = true
    ∧ (∀ i ∈ [0, 1, 2, 3], ((rotations demoCodec 5 (freshLogger 3 1024 GZIP emptyDisk)).disk
        (Path.numbered i ".gz")).isSome = true) := by
  decide

/-- C8: with GZIP, a rotation leaves the base file holding the bytes it held before: it is
archived, never renamed or truncated, and reopened with `O_APPEND`. With NoCompress the
same rotation moves the bytes to generation 0 and leaves an empty base file. -/
theorem C8_base_file_kept_when_compressing :
    ((freshLogger 3 1024 GZIP (emptyDisk.set Path.base (some "old\n".toList))).rotate
        demoCodec).disk Path.base = some "old\n".toList
    ∧ ((freshLogger 3 1024 Zlib (emptyDisk.set Path.base (some "old\n".toList))).rotate
        demoCodec).disk Path.base = some "old\n".toList
    ∧ ((freshLogger 3 1024 LZW (emptyDisk.set Path.base (some "old\n".toList))).rotate
        demoCodec).disk Path.base = some "old\n".toList
    ∧ ((freshLogger 3 1024 NoCompress (emptyDisk.set Path.base (some "old\n".toList))).rotate
        demoCodec).disk Path.base = some []
    ∧ ((freshLogger 3 1024 NoCompress (emptyDisk.set Path.base (some "old\n".toList))).rotate
        demoCodec).disk (Path.numbered 0 "") = some "old\n".toList := by
  decide

theorem shiftOne_plain (ext : String) (n : Nat) (fs : FS) :
    shiftOne ext (n : Int) fs (Path.plain ext) = fs (Path.plain ext) := by
  have hn : ¬ ((n : Int) = -1) := by omega
  unfold shiftOne
  simp only [hn, if_false]
  cases fs (Path.numbered n ext) with
  | none => rfl
  | some d => simp [FS.rename, FS.set]

/-- The last turn of the loop moves `<filename><ext>` to generation 0. -/
theorem shiftLoop_generation_zero (ext : String) (n : Nat) : ∀ fs : FS,
    (fs (Path.plain ext)).isSome = true →
    shiftLoop ext (n + 1) fs (Path.numbered 0 ext) = fs (Path.plain ext) := by
  induction n with
  | zero =>
    intro fs h
    obtain ⟨d, hd⟩ := Option.isSome_iff_exists.mp h
    simp [shiftLoop, shiftOne, hd, FS.rename, FS.set]
  | succ n ih =>
    intro fs h
    have h1 := shiftOne_plain ext n fs
    rw [shiftLoop]
    simp only [Nat.cast_add, Nat.cast_one, add_sub_cancel_right]
    rw [ih _ (by rw [h1]; exact h), h1]

end GenerationClaims

section ShiftLemmas

theorem rename_bounded (M : Int) (fs : FS) (old : Path) (k : Int) (ext : String)
    (h : Bounded M fs) (h0 : 0 ≤ k) (h1 : k ≤ M) :
    Bounded M (fs.rename old (Path.numbered k ext)) := by
  intro j ext2 hj
  by_cases hq : Path.numbered j ext2 = Path.numbered k ext
  · injection hq with hjk _
    omega
  · unfold FS.rename FS.set at hj
    by_cases ho : Path.numbered j ext2 = old
    · simp [ho] at hj
    · simp only [ho, hq, if_false] at hj
      exact h j ext2 hj

theorem shiftOne_bounded (M : Int) (ext : String) (i : Int) (fs : FS) (h : Bounded M fs)
    (h0 : -1 ≤ i) (h1 : i < M) : Bounded M (shiftOne ext i fs) := by
  unfold shiftOne
  simp only
  split
  · exact h
  · exact rename_bounded M fs _ (i + 1) ext h (by omega) (by omega)

theorem shiftLoop_bounded (M : Int) (ext : String) (n : Nat) : ∀ fs : FS, Bounded M fs →
    (n : Int) ≤ M + 1 → Bounded M (shiftLoop ext n fs) := by
  induction n with
  | zero => intro fs h _; exact h
  | succ n ih =>
    intro fs h hn
    rw [shiftLoop]
    exact ih _ (shiftOne_bounded M ext _ fs h (by omega) (by omega)) (by omega)

theorem set_plain_bounded (M : Int) (ext : String) (d : Option Bytes) (fs : FS)
    (h : Bounded M fs) : Bounded M (fs.set (Path.plain ext) d) := by
  intro j ext2 hj
  simp only [FS.set] at hj
  rw [if_neg (by simp)] at hj
  exact h j ext2 hj

theorem rotate_maxFiles (c : Codec) (l : RotateLogger) :
    (l.rotate c).maxFiles = l.maxFiles := by
  unfold RotateLogger.rotate
  by_cases hout : l.out = some Writer.failing
  · rw [if_pos hout]
  · rw [if_neg hout]
    by_cases hc : l.compress > NoCompress
    · simp only [hc, if_true, RotateLogger.archive, RotateLogger.reset]
      cases l.disk Path.base <;> rfl
    · simp only [hc, if_false, RotateLogger.reset]

/-- What `rotate` does keep: no generation index beyond `maxFiles`. -/
theorem rotate_bounded (c : Codec) (l : RotateLogger) (h : Bounded l.maxFiles l.disk) :
    Bounded l.maxFiles (l.rotate c).disk := by
  obtain ⟨maxFiles, maxSize, ws, out, compress, disk⟩ := l
  simp only at h
  unfold RotateLogger.rotate
  by_cases hout : out = some Writer.failing
  · simp only [hout, if_true]
    exact h
  · simp only [hout, if_false]
    have hloop : ∀ fs : FS, Bounded maxFiles fs →
        Bounded maxFiles (shiftLoop compress.String (maxFiles - 1 + 2).toNat fs) := by
      intro fs hfs
      by_cases hm : 0 ≤ maxFiles + 1
      · exact shiftLoop_bounded maxFiles _ _ fs hfs (by omega)
      · have h0 : (maxFiles - 1 + 2).toNat = 0 := by omega
        rw [h0]
        exact hfs
    by_cases hc : compress > NoCompress
    · simp only [hc, if_true, RotateLogger.archive]
      cases hb : disk Path.base with
      | none =>
        simp only [RotateLogger.reset]
        exact set_plain_bounded _ _ _ _ (hloop _ h)
      | some content =>
        simp only [RotateLogger.reset]
        exact set_plain_bounded _ _ _ _ (hloop _ (set_plain_bounded _ _ _ _ h))
    · simp only [hc, if_false, RotateLogger.reset]
      exact set_plain_bounded _ _ _ _ (hloop _ h)

/-- After any number of rotations from a directory without generations, every generation
index lies in `0 .. maxFiles`. -/
theorem rotations_bounded (c : Codec) (n : Nat) : ∀ l : RotateLogger,
    Bounded l.maxFiles l.disk →
    (rotations c n l).maxFiles = l.maxFiles
      ∧ Bounded l.maxFiles (rotations c n l).disk := by
  induction n with
  | zero => intro l h; exact ⟨rfl, h⟩
  | succ n ih =>
    intro l h
    have h1 := rotate_maxFiles c l
    have h2 := rotate_bounded c l h
    rw [rotations]
    obtain ⟨h3, h4⟩ := ih (l.rotate c) (by rw [h1]; exact h2)
    exact ⟨h3.trans h1, by rw [← h1]; exact h4⟩

theorem rename_base (fs : FS) (old new : Path) (h1 : Path.base ≠ old)
    (h2 : Path.base ≠ new) : fs.rename old new Path.base = fs Path.base := by
  simp [FS.rename, FS.set, h1, h2]

theorem shiftOne_base (ext : String) (hext : ext ≠ "") (i : Int) (fs : FS) :
    shiftOne ext i fs Path.base = fs Path.base := by
  have h1 : Path.base ≠ Path.numbered (i + 1) ext := by simp [Path.base]
  have h2 : Path.base ≠ (if i = -1 then Path.plain ext else Path.numbered i ext) := by
    split
    · simpa [Path.base] using Ne.symm hext
    · simp [Path.base]
  unfold shiftOne
  cases fs (if i = -1 then Path.plain ext else Path.numbered i ext) with
  | none => rfl
  | some d => exact rename_base fs _ _ h2 h1

theorem shiftLoop_base (ext : String) (hext : ext ≠ "") (n : Nat) : ∀ fs : FS,
    shiftLoop ext n fs Path.base = fs Path.base := by
  induction n with
  | zero => intro fs; rfl
  | succ n ih =>
    intro fs
    rw [shiftLoop, ih, shiftOne_base ext hext]

/-- Under every compression method a rotation leaves the bytes of the base file where they
are. -/
theorem rotate_keeps_base (c : Codec) (l : RotateLogger) (C : Bytes)
    (hz : l.compress = GZIP ∨ l.compress = Zlib ∨ l.compress = LZW)
    (hC : l.disk Path.base = some C) : (l.rotate c).disk Path.base = some C := by
  obtain ⟨maxFiles, maxSize, ws, out, compress, disk⟩ := l
  simp only at hz hC
  have hext : CompressMethod.String compress ≠ "" := by
    rcases hz with h | h | h <;> subst h <;> decide
  have hgt : compress > NoCompress := by
    rcases hz with h | h | h <;> subst h <;> decide
  unfold RotateLogger.rotate
  by_cases hout : out = some Writer.failing
  · simp [hout, hC]
  · simp only [hout, if_false, hgt, if_true, RotateLogger.archive, hC, RotateLogger.reset]
    have hp : Path.base ≠ Path.plain (CompressMethod.String compress) := by
      simpa [Path.base] using Ne.symm hext
    simp [FS.set, shiftLoop_base _ hext, hp, hC]

/-- The loop always moves `<filename><ext>` away. -/
theorem shiftLoop_plain_gone (ext : String) (n : Nat) : ∀ fs : FS,
    shiftLoop ext (n + 1) fs (Path.plain ext) = Option.none := by
  induction n with
  | zero =>
    intro fs
    cases h : fs (Path.plain ext) with
    | none => simp [shiftLoop, shiftOne, h]
    | some d => simp [shiftLoop, shiftOne, h, FS.rename, FS.set]
  | succ n ih =>
    intro fs
    rw [shiftLoop]
    exact ih _

/-- Without compression a rotation does leave a fresh base file, its former bytes being
generation 0. -/
theorem rotate_fresh_base (c : Codec) (l : RotateLogger) (hz : l.compress = NoCompress)
    (hm : 0 ≤ l.maxFiles) (hout : l.out ≠ some Writer.failing) :
    (l.rotate c).disk Path.base = some []
    ∧ ∀ C, l.disk Path.base = some C → (l.rotate c).disk (Path.numbered 0 "") = some C := by
  obtain ⟨maxFiles, maxSize, ws, out, compress, disk⟩ := l
  simp only at hz hm hout
  subst hz
  have hext : CompressMethod.String NoCompress = "" := by decide
  have hgt : ¬ (NoCompress > NoCompress) := by decide
  obtain ⟨n, hn⟩ : ∃ n : Nat, (maxFiles - 1 + 2).toNat = n + 1 :=
    ⟨maxFiles.toNat, by omega⟩
  unfold RotateLogger.rotate
  simp only [if_neg hout, if_neg hgt, hext, RotateLogger.reset, hn, Path.base]
  constructor
  · simp [FS.set, shiftLoop_plain_gone]
  · intro C hC
    rw [FS.set, if_neg (by decide), shiftLoop_generation_zero "" n disk (by simp [hC]), hC]

end ShiftLemmas

section GzipClaims

/-- C9: with GZIP, a base file holding `C`, no `<base>.gz`, `maxFiles ≥ 0` and a writer
whose `Close` succeeds, after `rotate` the generation `<base>.0.gz` holds `gzip C`; hence
any decompressor that inverts `gzip` recovers `C` from it exactly. -/
theorem C9_gzip_round_trip (c : Codec) (l : RotateLogger) (C : Bytes)
    (hz : l.compress = GZIP) (hC : l.disk Path.base = some C)
    (hnew : l.disk (Path.plain ".gz") = Option.none) (hm : 0 ≤ l.maxFiles)
    (hout : l.out ≠ some Writer.failing) :
    (l.rotate c).disk (Path.numbered 0 ".gz") = some (c.gzip C)
    ∧ ∀ gunzip : Bytes → Bytes, (∀ x, gunzip (c.gzip x) = x) →
        ((l.rotate c).disk (Path.numbered 0 ".gz")).map gunzip = some C := by
  have hmain : (l.rotate c).disk (Path.numbered 0 ".gz") = some (c.gzip C) := by
    obtain ⟨maxFiles, maxSize, ws, out, compress, disk⟩ := l
    simp only at hz hC hnew hm hout
    subst hz
    have hext : CompressMethod.String GZIP = ".gz" := by decide
    have hgt : GZIP > NoCompress := by decide
    obtain ⟨n, hn⟩ : ∃ n : Nat, (maxFiles - 1 + 2).toNat = n + 1 :=
      ⟨maxFiles.toNat, by omega⟩
    unfold RotateLogger.rotate
    simp only [if_neg hout, if_pos hgt, RotateLogger.archive, hC, hext, hnew,
      RotateLogger.reset, hn, if_true, Option.getD_none, List.nil_append]
    rw [FS.set, if_neg (by decide), shiftLoop_generation_zero]
    · simp [FS.set]
    · simp [FS.set]
  refine ⟨hmain, ?_⟩
  intro gunzip hg
  rw [hmain]
  simp [hg]

theorem C9_gzip_round_trip_witness :
    ((freshLogger 3 1024 GZIP (emptyDisk.set Path.base (some "old\n".toList))).rotate
        demoCodec).disk (Path.numbered 0 ".gz") = some (demoCodec.gzip "old\n".toList) :=
  (C9_gzip_round_trip demoCodec
    (freshLogger 3 1024 GZIP (emptyDisk.set Path.base (some "old\n".toList))) "old\n".toList
    (by decide) (by decide) (by decide) (by decide) (by decide)).1

end GzipClaims

/-! ### Claims about the asynchronous backend -/

section AsyncClaims

variable {α : Type}

theorem writeLog_render (e : Env α) (l : AsyncLog α) (r : Record α) (b : Bytes)
    (h : render e r = some b) : writeLog e l r = some (l.write b) := by
  obtain ⟨r1, hr⟩ := render_msgBuf e r b h
  simp [writeLog, hr]

/-- Once the queue is closed, the goroutine of `start` writes what is queued, in order, and
closes `stop`. -/
theorem startRun_drains (e : Env α) (q : List (Record α)) (bq : List Bytes)
    (hq : List.Forall₂ (fun r b => render e r = some b) q bq) :
    ∀ (stopped : Nat) (out : List Bytes),
      AsyncLog.startRun e (q.length + 1)
        { stopped := stopped, out := out, queue := q, queueClosed := true, stop := false }
      = Run.done
        { stopped := stopped, out := out ++ bq, queue := [], queueClosed := true,
          stop := true } := by
  induction hq with
  | nil =>
    intro stopped out
    simp [AsyncLog.startRun, AsyncLog.startStep]
  | @cons r b q bq hr _ ih =>
    intro stopped out
    rw [List.length_cons, AsyncLog.startRun]
    simp only [AsyncLog.startStep, writeLog_render e _ r b hr, AsyncLog.write]
    simp only [Bool.false_eq_true, if_false]
    rw [ih stopped (out ++ [b])]
    simp

/-- What a schedule run before the flush preserves: the backend is open, and the sink
followed by the rendering of the queue is the rendering of everything logged. -/
theorem exec_invariant (e : Env α) (sched : List (Action α)) :
    ∀ (l0 l : AsyncLog α) (bq : List Bytes),
      AsyncLog.exec e l0 sched = Run.done l →
      l0.stopped = 0 → l0.queueClosed = false → l0.stop = false →
      List.Forall₂ (fun r b => render e r = some b) (l0.queue ++ logged sched) bq →
      l.stopped = 0 ∧ l.queueClosed = false ∧ l.stop = false
      ∧ ∃ bq1, List.Forall₂ (fun r b => render e r = some b) l.queue bq1
          ∧ l.out ++ bq1 = l0.out ++ bq := by
  induction sched with
  | nil =>
    intro l0 l bq hrun h1 h2 h3 hr
    simp only [AsyncLog.exec, Run.done.injEq] at hrun
    subst hrun
    exact ⟨h1, h2, h3, bq, by simpa [logged] using hr, rfl⟩
  | cons a rest ih =>
    intro l0 l bq hrun h1 h2 h3 hr
    obtain ⟨stopped, out, queue, queueClosed, stop⟩ := l0
    simp only at h1 h2 h3 hr
    subst h1 h2 h3
    cases a with
    | log r =>
      simp only [AsyncLog.exec, AsyncLog.log, if_true, Bool.false_eq_true, if_false] at hrun
      by_cases hlen : queue.length < 1024
      · simp only [hlen, if_true] at hrun
        have h := ih _ l bq hrun rfl rfl rfl (by simpa [logged] using hr)
        exact h
      · simp [hlen] at hrun
    | drain =>
      cases queue with
      | nil =>
        simp [AsyncLog.exec, AsyncLog.startStep] at hrun
      | cons r q =>
        simp only [logged, List.cons_append] at hr
        cases hr with
        | @cons _ b _ bq2 hb hrest =>
          simp only [AsyncLog.exec, AsyncLog.startStep, writeLog_render e _ r b hb,
            AsyncLog.write] at hrun
          have h := ih _ l bq2 hrun rfl rfl rfl hrest
          obtain ⟨g1, g2, g3, bq1, g4, g5⟩ := h
          exact ⟨g1, g2, g3, bq1, g4, by rw [g5]; simp⟩

/-- C10: after any schedule of `log` calls and turns of the drain goroutine run on a new
backend, `Flush` returns, and it returns with the queue empty, `stop` closed and the sink
holding exactly the rendered bytes of the logged records, one write per record, in the
order in which they were logged. -/
theorem C10_flush_writes_all_in_order (e : Env α) (sched : List (Action α))
    (l : AsyncLog α) (bufs : List Bytes)
    (hrun : AsyncLog.exec e NewAsyncBackend sched = Run.done l)
    (hr : List.Forall₂ (fun r b => render e r = some b) (logged sched) bufs) :
    AsyncLog.Flush e l = Run.done
        { stopped := 1, out := bufs, queue := [], queueClosed := true, stop := true }
    ∧ bufs.length = (logged sched).length := by
  obtain ⟨h1, h2, h3, bq1, h4, h5⟩ := exec_invariant e sched NewAsyncBackend l bufs hrun
    rfl rfl rfl (by simpa [NewAsyncBackend] using hr)
  refine ⟨?_, hr.length_eq.symm⟩
  obtain ⟨stopped, out, queue, queueClosed, stop⟩ := l
  simp only at h1 h2 h3 h4 h5
  subst h1 h2 h3
  simp only [NewAsyncBackend, List.nil_append] at h5
  simp only [AsyncLog.Flush, Bool.false_eq_true, if_false]
  rw [startRun_drains e queue bq1 h4, h5]

end AsyncClaims

section AsyncRuns

variable {α : Type}

/-- For every list of records there is a schedule that logs them: the one in which every
`log` is followed by a turn of the drain goroutine. -/
theorem exec_alternating (e : Env α) (rs : List (Record α)) (bufs : List Bytes)
    (hr : List.Forall₂ (fun r b => render e r = some b) rs bufs) :
    ∀ out : List Bytes,
      AsyncLog.exec e
        { stopped := 0, out := out, queue := [], queueClosed := false, stop := false }
        (alternating rs)
      = Run.done
        { stopped := 0, out := out ++ bufs, queue := [], queueClosed := false,
          stop := false }
      ∧ logged (alternating rs) = rs := by
  induction hr with
  | nil =>
    intro out
    simp [AsyncLog.exec, logged, alternating]
  | @cons r b rs bufs hb _ ih =>
    intro out
    obtain ⟨h1, h2⟩ := ih (out ++ [b])
    constructor
    · simp only [alternating, AsyncLog.exec, AsyncLog.log, if_true, Bool.false_eq_true,
        if_false, List.length_nil, Nat.ofNat_pos, List.nil_append, AsyncLog.startStep,
        writeLog_render e _ r b hb, AsyncLog.write]
      rw [h1]
      simp
    · simp [alternating, logged, h2]

end AsyncRuns

section AsyncWitness

theorem C10_flush_writes_all_in_order_witness :
    AsyncLog.Flush demoEnv
        { stopped := 0, out := [helloBytes], queue := [helloRecord, helloRecord],
          queueClosed := false, stop := false }
      = Run.done
        { stopped := 1, out := [helloBytes, helloBytes, helloBytes], queue := [],
          queueClosed := true, stop := true }
    ∧ [helloBytes, helloBytes, helloBytes].length
      = (logged [Action.log helloRecord, Action.log helloRecord, Action.drain,
          Action.log helloRecord]).length :=
  C10_flush_writes_all_in_order demoEnv
    [Action.log helloRecord, Action.log helloRecord, Action.drain, Action.log helloRecord]
    { stopped := 0, out := [helloBytes], queue := [helloRecord, helloRecord],
      queueClosed := false, stop := false }
    [helloBytes, helloBytes, helloBytes] (by rfl)
    (List.Forall₂.cons (by decide) (List.Forall₂.cons (by decide)
      (List.Forall₂.cons (by decide) List.Forall₂.nil)))

end AsyncWitness

/-! ### Claims about utoa -/

section UtoaClaims

theorem decimal_length_le (w : Nat) : ∀ i : Nat, i < 10 ^ (w + 1) →
    (decimal i).length ≤ w + 1 := by
  induction w with
  | zero =>
    intro i hi
    rw [decimal_small i (by simpa using hi)]
    simp
  | succ w ih =>
    intro i hi
    by_cases h10 : i < 10
    · rw [decimal_small i h10]
      simp
    · have hq : i / 10 < 10 ^ (w + 1) := by
        rw [pow_succ] at hi
        omega
      rw [decimal_step i (by omega), List.length_append, List.length_singleton]
      have := ih (i / 10) hq
      omega

/-- C14: for a `uint64` value `i`, `utoa` with a width `1 ≤ wid ≤ 20` and `i < 10 ^ wid`
returns `buf` followed by exactly `wid` characters, the decimal digits of `i` left-padded
with `'0'`; with a negative width it returns `buf` followed by the decimal digits of `i`
and no padding. In both cases it returns, and `buf` is a prefix of the result. -/
theorem C14_utoa_fixed_width (buf : Bytes) (i : Nat) (wid : Int) (hi : i < 2 ^ 64) :
    (1 ≤ wid → wid ≤ 20 → i < 10 ^ wid.toNat →
      utoa buf i wid
        = some (buf ++ (List.replicate (wid.toNat - (decimal i).length) '0' ++ decimal i))
      ∧ (List.replicate (wid.toNat - (decimal i).length) '0' ++ decimal i).length
        = wid.toNat)
    ∧ (wid < 0 → utoa buf i wid = some (buf ++ decimal i)) := by
  constructor
  · intro h1 h20 hlt
    refine ⟨by rw [utoa_eq buf i wid hi h20]; rfl, ?_⟩
    obtain ⟨w, hw⟩ : ∃ w : Nat, wid.toNat = w + 1 := ⟨wid.toNat - 1, by omega⟩
    rw [hw] at hlt ⊢
    have := decimal_length_le w i hlt
    rw [List.length_append, List.length_replicate]
    omega
  · intro hneg
    rw [utoa_eq buf i wid hi (by omega), zeroPad_le_one _ _ (by omega)]

theorem C14_utoa_fixed_width_witness :
    utoa "t=".toList 42 6 = some "t=000042".toList
    ∧ utoa "n=".toList 42 (-1) = some "n=42".toList :=
  ⟨((C14_utoa_fixed_width "t=".toList 42 6 (by decide)).1 (by decide) (by decide)
      (by decide)).1.trans (by decide),
    ((C14_utoa_fixed_width "n=".toList 42 (-1) (by decide)).2 (by decide)).trans (by decide)⟩

end UtoaClaims

/-! ### The size counter of the rotating backend -/

section SizeClaims

variable {α : Type}

/-- One `writeLog` of a buffer no longer than `maxSize` through an open file: the counter
ends within `maxSize`, and it does not wrap around when `maxSize < 2^62`. -/
theorem writeBuf_bounded (c : Codec) (l : RotateLogger) (p : Path) (b : Bytes)
    (hout : l.out = some (Writer.file p)) (hb : (b.length : Int) ≤ l.maxSize)
    (hmax : l.maxSize < 2 ^ 63) :
    ∃ l1 q, l.writeBuf c b = some l1 ∧ l1.out = some (Writer.file q)
      ∧ l1.maxSize = l.maxSize ∧ l1.writtenSize ≤ l.maxSize
      ∧ (l.maxSize < 2 ^ 62 → 0 ≤ l.writtenSize → l.writtenSize ≤ l.maxSize →
          0 ≤ l1.writtenSize) := by
  unfold RotateLogger.writeBuf
  simp only
  by_cases hc : wrap64 (l.writtenSize + b.length) > l.maxSize
  · rw [if_pos hc]
    obtain ⟨h1, h2, h3⟩ := rotate_open c l (by rw [hout]; simp)
    have hw : wrap64 ((0 : Int) + b.length) = b.length := by
      rw [wrap64_id _ (by omega) (by omega)]
      omega
    have hwr : (l.rotate c).write b = some
        (RotateLogger.mk (l.rotate c).maxFiles (l.rotate c).maxSize (b.length : Int)
          (some (Writer.file Path.base)) (l.rotate c).compress
          ((l.rotate c).disk.set Path.base
            (some (((l.rotate c).disk Path.base).getD [] ++ b)))) := by
      simp only [RotateLogger.write, h2, h1, hw]
    refine ⟨_, Path.base, hwr, rfl, h3, hb, ?_⟩
    intro _ _ _
    exact Int.natCast_nonneg _
  · rw [if_neg hc]
    have hwr : l.write b = some
        (RotateLogger.mk l.maxFiles l.maxSize (wrap64 (l.writtenSize + b.length))
          (some (Writer.file p)) l.compress
          (l.disk.set p (some ((l.disk p).getD [] ++ b)))) := by
      simp only [RotateLogger.write, hout]
    refine ⟨_, p, hwr, rfl, rfl, by simpa using hc, ?_⟩
    intro h62 h0 hle
    show 0 ≤ wrap64 (l.writtenSize + b.length)
    rw [wrap64_id _ (by omega) (by omega)]
    omega

theorem writeLogs_bounded (e : Env α) (c : Codec) (rs : List (Record α)) :
    ∀ (l : RotateLogger) (p : Path), l.out = some (Writer.file p) → l.maxSize < 2 ^ 63 →
      (∀ r ∈ rs, ∃ b, render e r = some b ∧ (b.length : Int) ≤ l.maxSize) → rs ≠ [] →
      ∃ l1 q, RotateLogger.writeLogs e c l rs = some l1 ∧ l1.out = some (Writer.file q)
        ∧ l1.maxSize = l.maxSize ∧ l1.writtenSize ≤ l.maxSize
        ∧ (l.maxSize < 2 ^ 62 → 0 ≤ l.writtenSize → l.writtenSize ≤ l.maxSize →
            0 ≤ l1.writtenSize) := by
  induction rs with
  | nil => intro l p _ _ _ h; exact absurd rfl h
  | cons r rs ih =>
    intro l p hout hmax hrs _
    obtain ⟨b, hb, hlen⟩ := hrs r (List.mem_cons_self r rs)
    obtain ⟨l1, q, g1, g2, g3, g4, g5⟩ := writeBuf_bounded c l p b hout hlen hmax
    have hstep : l.writeLog e c r = some l1 := by rw [writeLog_eq e c l r b hb, g1]
    by_cases hnil : rs = []
    · subst hnil
      exact ⟨l1, q, by simp [RotateLogger.writeLogs, hstep], g2, g3, g4, g5⟩
    · obtain ⟨l2, q2, k1, k2, k3, k4, k5⟩ := ih l1 q g2 (by rw [g3]; exact hmax)
        (fun r2 hr2 => by rw [g3]; exact hrs r2 (List.mem_cons_of_mem r hr2)) hnil
      refine ⟨l2, q2, by simp only [RotateLogger.writeLogs, hstep]; exact k1, k2,
        k3.trans g3, by rw [← g3]; exact k4, ?_⟩
      intro h62 h0 hle
      exact k5 (by rw [g3]; exact h62) (g5 h62 h0 hle) (by rw [g3]; exact g4)

/-- C12: from a freshly rotated state (`writtenSize = 0`, the writer an open file), with
`maxSize` an `int64` and records that each render to at most `maxSize` bytes: after every
`writeLog` of the sequence, that is after every non-empty prefix of it, the run has
returned and `writtenSize ≤ maxSize`; and when `maxSize < 2^62` the counter has not
wrapped, so it is the number of bytes written since the last rotation. -/
theorem C12_writtenSize_within_maxSize (e : Env α) (c : Codec) (l : RotateLogger) (p : Path)
    (rs : List (Record α)) (hout : l.out = some (Writer.file p)) (h0 : l.writtenSize = 0)
    (hmax : l.maxSize < 2 ^ 63)
    (hrs : ∀ r ∈ rs, ∃ b, render e r = some b ∧ (b.length : Int) ≤ l.maxSize) :
    ∀ pre suf : List (Record α), rs = pre ++ suf → pre ≠ [] →
      ∃ l1, RotateLogger.writeLogs e c l pre = some l1 ∧ l1.writtenSize ≤ l.maxSize
        ∧ (l.maxSize < 2 ^ 62 → 0 ≤ l1.writtenSize) := by
  intro pre suf hsplit hpre
  have hpre_mem : ∀ r ∈ pre, ∃ b, render e r = some b ∧ (b.length : Int) ≤ l.maxSize := by
    intro r hr
    exact hrs r (by rw [hsplit]; exact List.mem_append_left suf hr)
  obtain ⟨l1, q, g1, _, _, g4, g5⟩ := writeLogs_bounded e c pre l p hout hmax hpre_mem hpre
  refine ⟨l1, g1, g4, ?_⟩
  intro h62
  have hnonneg : 0 ≤ l.maxSize := by
    cases pre with
    | nil => exact absurd rfl hpre
    | cons r pre2 =>
      obtain ⟨b, _, hb⟩ := hpre_mem r (List.mem_cons_self r pre2)
      omega
  exact g5 h62 (by omega) (by omega)

end SizeClaims

section SizeWitness

theorem C12_writtenSize_within_maxSize_witness :
    ∃ l1, RotateLogger.writeLogs demoEnv demoCodec
        (NewRotateBackend demoCodec emptyDisk 3 100 NoCompress)
        [helloRecord, helloRecord, helloRecord] = some l1
      ∧ l1.writtenSize ≤ (NewRotateBackend demoCodec emptyDisk 3 100 NoCompress).maxSize
      ∧ ((NewRotateBackend demoCodec emptyDisk 3 100 NoCompress).maxSize < 2 ^ 62 →
          0 ≤ l1.writtenSize) :=
  C12_writtenSize_within_maxSize demoEnv demoCodec
    (NewRotateBackend demoCodec emptyDisk 3 100 NoCompress) Path.base
    [helloRecord, helloRecord, helloRecord] (by decide) (by decide) (by decide)
    (fun r hr => by
      have h : r = helloRecord := by simpa using hr
      subst h
      exact ⟨helloBytes, by decide, by decide⟩)
    [helloRecord, helloRecord, helloRecord] [] (by simp) (by simp)

end SizeWitness

/-! ### Claims about closeBackend and name -/

section CloseClaims

/-- C11: `closeBackend` makes no `Close` call when the writer is a file with the descriptor
of stdin, stdout or stderr, exactly one `Close` call, on that file, when the writer is a
file with any other descriptor, and none when the writer is not a file. -/
theorem C11_closeBackend_spares_std_streams (std : StdFds) (closes : List Nat) :
    (∀ fd, fd = std.stdin ∨ fd = std.stdout ∨ fd = std.stderr →
      closeBackend std (Sink.osFile fd) closes = closes)
    ∧ (∀ fd, fd ≠ std.stdin → fd ≠ std.stdout → fd ≠ std.stderr →
      closeBackend std (Sink.osFile fd) closes = closes ++ [fd])
    ∧ closeBackend std Sink.other closes = closes := by
  refine ⟨?_, ?_, rfl⟩
  · intro fd h
    simp [closeBackend, h]
  · intro fd h0 h1 h2
    simp [closeBackend, h0, h1, h2]

theorem C11_closeBackend_spares_std_streams_witness :
    closeBackend unixFds (Sink.osFile 1) [] = []
    ∧ closeBackend unixFds (Sink.osFile 7) [] = [] ++ [7] :=
  ⟨(C11_closeBackend_spares_std_streams unixFds []).1 1 (by decide),
    (C11_closeBackend_spares_std_streams unixFds []).2.1 7 (by decide) (by decide)
      (by decide)⟩

/-- C13: for the path `.profile`, whose only dot is its first byte, `name` returns the
whole path although its final element has the extension `.profile`: the loop of `name`
never looks at index 0. For `app.log` and `/usr/bin/tool.v2.exe` it returns the path
without the extension. -/
theorem C13_name_leading_dot :
    name '/' ".profile".toList = ".profile".toList
    ∧ extension '/' ".profile".toList = ".profile".toList
    ∧ name '/' ".profile".toList ++ extension '/' ".profile".toList ≠ ".profile".toList
    ∧ '.' ∈ lastElement '/' ".profile".toList
    ∧ name '/' "app.log".toList = "app".toList
    ∧ name '/' "/usr/bin/tool.v2.exe".toList = "/usr/bin/tool.v2".toList
    ∧ extension '/' "/usr/bin/tool.v2.exe".toList = ".exe".toList := by
  decide

end CloseClaims

/-! ### name away from the leading dot -/

section NameLemmas

theorem nameLoop_skip (sep : Char) (path : Bytes) (i : Nat) : ∀ k : Nat,
    (∀ j, i < j → j ≤ i + k → path[j]? ≠ some sep ∧ path[j]? ≠ some '.') →
    nameLoop sep path (i + k) = nameLoop sep path i := by
  intro k
  induction k with
  | zero => intro _; rfl
  | succ k ih =>
    intro h
    obtain ⟨h1, h2⟩ := h (i + k + 1) (by omega) (by omega)
    rw [← Nat.add_assoc, nameLoop, if_neg h1, if_neg h2]
    exact ih (fun j hj hk => h j hj (by omega))

theorem getElem?_append_cons_suffix (pre suf : Bytes) (x c : Char) (j : Nat)
    (hj : pre.length < j) (hget : (pre ++ x :: suf)[j]? = some c) : c ∈ suf := by
  rw [List.getElem?_append_right (by omega)] at hget
  have hpos : j - pre.length = (j - pre.length - 1) + 1 := by omega
  rw [hpos, List.getElem?_cons_succ] at hget
  exact List.getElem?_mem hget

/-- The scan from the end reaches the index of `x` when no separator and no dot follow. -/
theorem name_reaches (sep : Char) (pre suf : Bytes) (x : Char)
    (hs : sep ∉ suf) (hd : '.' ∉ suf) :
    name sep (pre ++ x :: suf) = nameLoop sep (pre ++ x :: suf) pre.length := by
  have hlen : (pre ++ x :: suf).length - 1 = pre.length + suf.length := by simp
  unfold name
  rw [hlen]
  apply nameLoop_skip
  intro j hj _
  constructor
  · intro hget
    exact hs (getElem?_append_cons_suffix pre suf x sep j hj hget)
  · intro hget
    exact hd (getElem?_append_cons_suffix pre suf x '.' j hj hget)

theorem name_of_last_sep (sep : Char) (pre suf : Bytes) (hpre : pre ≠ [])
    (hs : sep ∉ suf) (hd : '.' ∉ suf) :
    name sep (pre ++ sep :: suf) = pre ++ sep :: suf := by
  obtain ⟨m, hm⟩ : ∃ m, pre.length = m + 1 :=
    ⟨pre.length - 1, by have := List.length_pos.mpr hpre; omega⟩
  rw [name_reaches sep pre suf sep hs hd, hm]
  have hget : (pre ++ sep :: suf)[m + 1]? = some sep := by
    rw [List.getElem?_append_right (by omega)]
    simp [hm]
  rw [nameLoop, if_pos hget]

theorem name_of_last_dot (sep : Char) (pre suf : Bytes) (hpre : pre ≠ [])
    (hsep : sep ≠ '.') (hs : sep ∉ suf) (hd : '.' ∉ suf) :
    name sep (pre ++ '.' :: suf) = pre := by
  obtain ⟨m, hm⟩ : ∃ m, pre.length = m + 1 :=
    ⟨pre.length - 1, by have := List.length_pos.mpr hpre; omega⟩
  rw [name_reaches sep pre suf '.' hs hd, hm]
  have hget : (pre ++ '.' :: suf)[m + 1]? = some '.' := by
    rw [List.getElem?_append_right (by omega)]
    simp [hm]
  have hne : (pre ++ '.' :: suf)[m + 1]? ≠ some sep := by
    rw [hget]
    intro h
    exact hsep (Option.some.inj h).symm
  rw [nameLoop, if_neg hne, if_pos hget, ← hm]
  simp

theorem name_of_clean_tail (sep : Char) (path : Bytes) (hs : sep ∉ path.tail)
    (hd : '.' ∉ path.tail) : name sep path = path := by
  unfold name
  have := nameLoop_skip sep path 0 (path.length - 1) (by
    intro j hj _
    cases path with
    | nil => simp
    | cons c cs =>
      obtain ⟨j2, rfl⟩ : ∃ j2, j = j2 + 1 := ⟨j - 1, by omega⟩
      rw [List.getElem?_cons_succ]
      exact ⟨fun h => hs (List.getElem?_mem h), fun h => hd (List.getElem?_mem h)⟩)
  simpa [nameLoop] using this

/-- The last separator or dot of a list that holds one. -/
theorem exists_last_mark (sep : Char) (l : Bytes) (h : sep ∈ l ∨ '.' ∈ l) :
    ∃ pre x suf, l = pre ++ x :: suf ∧ (x = sep ∨ x = '.') ∧ sep ∉ suf ∧ '.' ∉ suf := by
  induction l with
  | nil => simp at h
  | cons c cs ih =>
    by_cases hcs : sep ∈ cs ∨ '.' ∈ cs
    · obtain ⟨pre, x, suf, h1, h2, h3, h4⟩ := ih hcs
      exact ⟨c :: pre, x, suf, by rw [h1]; rfl, h2, h3, h4⟩
    · simp only [not_or] at hcs
      have hc : c = sep ∨ c = '.' := by
        rcases h with h | h
        · rcases List.mem_cons.mp h with h | h
          · exact Or.inl h.symm
          · exact absurd h hcs.1
        · rcases List.mem_cons.mp h with h | h
          · exact Or.inr h.symm
          · exact absurd h hcs.2
      exact ⟨[], c, cs, rfl, hc, hcs.1, hcs.2⟩

theorem lastElement_through_dot (sep : Char) (pre suf : Bytes) (hsep : sep ≠ '.')
    (hs : sep ∉ suf) :
    ∃ el, lastElement sep (pre ++ '.' :: suf) = el ++ '.' :: suf := by
  by_cases hp : sep ∈ pre
  · obtain ⟨p1, p2, h1, h2⟩ := exists_last_occurrence sep pre hp
    refine ⟨p2, ?_⟩
    have hno : sep ∉ p2 ++ '.' :: suf := by
      simp only [List.mem_append, List.mem_cons, not_or]
      exact ⟨h2, hsep, hs⟩
    rw [h1, List.append_assoc, List.cons_append, lastElement_of_last sep _ hno]
  · refine ⟨pre, ?_⟩
    apply lastElement_of_not_mem
    simp only [List.mem_append, List.mem_cons, not_or]
    exact ⟨hp, hsep, hs⟩

/-- Unless the path is a dot followed by bytes that hold neither a dot nor a separator,
`name` is the path without its extension, and it is the whole path exactly when the final
element has no dot. -/
theorem name_append_extension (sep : Char) (path : Bytes) (hsep : sep ≠ '.')
    (h : ¬ (path.head? = some '.' ∧ sep ∉ path.tail ∧ '.' ∉ path.tail)) :
    name sep path ++ extension sep path = path
    ∧ (name sep path = path ↔ '.' ∉ lastElement sep path) := by
  by_cases ht : sep ∈ path.tail ∨ '.' ∈ path.tail
  · cases path with
    | nil => simp at ht
    | cons c cs =>
      obtain ⟨pre, x, suf, h1, h2, h3, h4⟩ := exists_last_mark sep cs ht
      have hpath : c :: cs = (c :: pre) ++ x :: suf := by rw [h1]; rfl
      rw [hpath]
      rcases h2 with h2 | h2
      · subst h2
        have hel : lastElement x ((c :: pre) ++ x :: suf) = suf := lastElement_of_last x suf h3 _
        rw [name_of_last_sep x (c :: pre) suf (by simp) h3 h4]
        rw [List.cons_append] at hel
        simp [extension, hel, h4]
      · subst h2
        obtain ⟨el, hel⟩ := lastElement_through_dot sep (c :: pre) suf hsep h3
        have hdot : lastElement '.' (el ++ '.' :: suf) = suf := lastElement_of_last '.' suf h4 _
        rw [name_of_last_dot sep (c :: pre) suf (by simp) hsep h3 h4]
        rw [List.cons_append] at hel
        simp [extension, hel, hdot]
  · simp only [not_or] at ht
    rw [name_of_clean_tail sep path ht.1 ht.2]
    have hhead : path.head? ≠ some '.' := fun hh => h ⟨hh, ht.1, ht.2⟩
    have hnodot : '.' ∉ lastElement sep path := by
      cases path with
      | nil => simp [lastElement]
      | cons c cs =>
        simp only [List.tail_cons] at ht
        simp only [List.head?_cons, ne_eq, Option.some.injEq] at hhead
        simp only [lastElement, ht.1, if_false]
        split
        · exact ht.2
        · simp only [List.mem_cons, not_or]
          exact ⟨Ne.symm hhead, ht.2⟩
    simp [extension, hnodot]

end NameLemmas

end Log
